import Mathlib

/-!
Verification of the reconciliation and retention engine of
`scripts/backup.py` (work-machine-backup).

The Python source is shallowly embedded: paths and file names are lists of
characters, calendar dates are a structure exposing exactly the projections
the script uses, the filesystem mirror is an inductive tree, and each
relevant Python function is translated into an executable Lean definition
whose name and control flow follow the source.
-/

/-- Python strings (paths, file names, command output) are modelled as
lists of characters. -/
abbrev PathStr := List Char

/-! ## Calendar dates

`retention_cleanup` uses only these operations of `datetime.date`:
subtraction in days (`(today - d).days`), chronological comparison
(`d > d0`), the `year` and `month` fields, and `isocalendar()[:2]`.
A date is therefore embedded as a structure exposing exactly those
projections; `rd` is the proleptic Gregorian day number, so Python's
`(a - b).days` is `a.rd - b.rd` and `a > b` is `b.rd < a.rd`. -/
structure PyDate where
  rd : Int
  year : Int
  month : Int
  isoYear : Int
  isoWeek : Int
deriving DecidableEq

/-- `(today - d).days` in `retention_cleanup`. -/
def ageDays (today d : PyDate) : Int := today.rd - d.rd

/-- `d.isocalendar()[:2]`: the ISO (year, week) bucket key of the weekly tier. -/
def wkey (d : PyDate) : Int × Int := (d.isoYear, d.isoWeek)

/-- `(d.year, d.month)`: the bucket key of the monthly tier. -/
def mkey (d : PyDate) : Int × Int := (d.year, d.month)

/-! ## The retention dictionaries

`weekly_kept` and `monthly_kept` are Python dicts from a bucket key to a
`(path, date)` pair; they are embedded as association lists with
in-place update (Python dicts keep the insertion position of a key). -/

/-- Dictionary lookup `m[key]` / `key in m`. -/
def alLookup {β : Type} (key : Int × Int) : List ((Int × Int) × β) → Option β
  | [] => none
  | (k, v) :: t => if k = key then some v else alLookup key t

/-- Dictionary update `m[key] = v`. -/
def alUpdate {β : Type} (key : Int × Int) (v : β) :
    List ((Int × Int) × β) → List ((Int × Int) × β)
  | [] => [(key, v)]
  | (k, w) :: t => if k = key then (key, v) :: t else (k, w) :: alUpdate key v t

/-- One bucket dictionary: bucket key ↦ (path, date) of the best entry so far. -/
abbrev BucketMap := List ((Int × Int) × (PathStr × PyDate))

/-- The dict update in the weekly/monthly branch:
`if key not in kept or d > kept[key][1]: kept[key] = (path, d)`. -/
def bump (m : BucketMap) (key : Int × Int) (p : PathStr) (d : PyDate) : BucketMap :=
  match alLookup key m with
  | none => alUpdate key (p, d) m
  | some pd0 => if pd0.2.rd < d.rd then alUpdate key (p, d) m else m

/-- The loop state of `retention_cleanup`: the `keep` set and the two
bucket dictionaries. -/
structure RState where
  keep : Finset PathStr
  weekly : BucketMap
  monthly : BucketMap

/-- The body of the classification loop of `retention_cleanup`
(lines 467-482): one artifact `(path, d)` is classified by
`age = (today - d).days` into daily / weekly / monthly / expired. -/
def classify (today : PyDate) (s : RState) (pd : PathStr × PyDate) : RState :=
  let age := ageDays today pd.2
  if age ≤ 30 then
    { s with keep := insert pd.1 s.keep }
  else if age ≤ 89 then
    { s with weekly := bump s.weekly (wkey pd.2) pd.1 pd.2 }
  else if age ≤ 364 then
    { s with monthly := bump s.monthly (mkey pd.2) pd.1 pd.2 }
  else
    s

/-- The state after the whole classification loop. -/
def retentionState (today : PyDate) (bundles : List (PathStr × PyDate)) : RState :=
  bundles.foldl (classify today) ⟨∅, [], []⟩

/-- The paths stored in a bucket dictionary (`for path, _ in kept.values()`). -/
def bucketNames (m : BucketMap) : Finset PathStr :=
  (m.map (fun kv => kv.2.1)).toFinset

/-- The final `keep` set of `retention_cleanup` (lines 484-487): the daily
artifacts plus the surviving weekly and monthly bucket representatives. -/
def keepSet (today : PyDate) (bundles : List (PathStr × PyDate)) : Finset PathStr :=
  (retentionState today bundles).keep ∪
    bucketNames (retentionState today bundles).weekly ∪
    bucketNames (retentionState today bundles).monthly

/-- `to_delete = [path for path, _ in bundles if path not in keep]` (line 489);
every path in this list is then removed (line 498). -/
def toDelete (today : PyDate) (bundles : List (PathStr × PyDate)) : List PathStr :=
  (bundles.filter (fun pd => pd.1 ∉ keepSet today bundles)).map Prod.fst

/-- The artifacts still on disk after `retention_cleanup` ran: the input
list minus the deleted ones. -/
def keptBundles (today : PyDate) (bundles : List (PathStr × PyDate)) :
    List (PathStr × PyDate) :=
  bundles.filter (fun pd => pd.1 ∈ keepSet today bundles)

/-- Daily tier: `age <= 30`. -/
def dailyB (today d : PyDate) : Bool := decide (ageDays today d ≤ 30)

/-- Weekly tier: the `elif age <= 89` branch, i.e. `31 ≤ age ≤ 89`. -/
def weeklyB (today d : PyDate) : Bool :=
  decide (31 ≤ ageDays today d ∧ ageDays today d ≤ 89)

/-- Monthly tier: the `elif age <= 364` branch, i.e. `90 ≤ age ≤ 364`. -/
def monthlyB (today d : PyDate) : Bool :=
  decide (90 ≤ ageDays today d ∧ ageDays today d ≤ 364)

/-- The weekly-tier artifacts of the input that fall in bucket `key`. -/
def weeklySel (today : PyDate) (key : Int × Int) (l : List (PathStr × PyDate)) :
    List (PathStr × PyDate) :=
  l.filter (fun pd => weeklyB today pd.2 && decide (wkey pd.2 = key))

/-- The monthly-tier artifacts of the input that fall in bucket `key`. -/
def monthlySel (today : PyDate) (key : Int × Int) (l : List (PathStr × PyDate)) :
    List (PathStr × PyDate) :=
  l.filter (fun pd => monthlyB today pd.2 && decide (mkey pd.2 = key))

/-- One step of the best-in-bucket selection as the dictionary performs it:
a later artifact replaces the current champion exactly when its date is
strictly later. -/
def bumpOpt (cur : Option (PathStr × PyDate)) (pd : PathStr × PyDate) :
    Option (PathStr × PyDate) :=
  match cur with
  | none => some pd
  | some q => if q.2.rd < pd.2.rd then some pd else some q

/-- Folding the best-in-bucket selection over a list of artifacts. -/
def bumpMany (cur : Option (PathStr × PyDate)) (l : List (PathStr × PyDate)) :
    Option (PathStr × PyDate) :=
  l.foldl bumpOpt cur

/-- The names of the daily-tier artifacts of a list. -/
def dailyNames (today : PyDate) (l : List (PathStr × PyDate)) : Finset PathStr :=
  ((l.filter (fun pd => dailyB today pd.2)).map Prod.fst).toFinset

/-! ## Dictionary lemmas -/

theorem alLookup_alUpdate_self {β : Type} (key : Int × Int) (v : β)
    (m : List ((Int × Int) × β)) : alLookup key (alUpdate key v m) = some v := by
  induction m with
  | nil => simp [alUpdate, alLookup]
  | cons kv t ih =>
    obtain ⟨k, w⟩ := kv
    by_cases h : k = key
    · simp [alUpdate, h, alLookup]
    · simp [alUpdate, h, alLookup, ih]

theorem alLookup_alUpdate_ne {β : Type} {key key' : Int × Int} (v : β)
    (m : List ((Int × Int) × β)) (h : key' ≠ key) :
    alLookup key (alUpdate key' v m) = alLookup key m := by
  induction m with
  | nil => simp [alUpdate, alLookup, h]
  | cons kv t ih =>
    obtain ⟨k, w⟩ := kv
    by_cases hk : k = key'
    · subst hk
      simp [alUpdate, alLookup, h]
    · by_cases hk2 : k = key
      · subst hk2
        simp [alUpdate, alLookup, Ne.symm h]
      · simp [alUpdate, hk, alLookup, hk2, ih]

theorem alLookup_mem {β : Type} {key : Int × Int} {v : β}
    {m : List ((Int × Int) × β)} (h : alLookup key m = some v) : (key, v) ∈ m := by
  induction m with
  | nil => simp [alLookup] at h
  | cons kv t ih =>
    obtain ⟨k, w⟩ := kv
    by_cases hk : k = key
    · subst hk
      simp [alLookup] at h
      simp [h]
    · simp [alLookup, hk] at h
      simp [ih h]

theorem alLookup_bump_self (m : BucketMap) (key : Int × Int) (p : PathStr)
    (d : PyDate) : alLookup key (bump m key p d) = bumpOpt (alLookup key m) (p, d) := by
  unfold bump bumpOpt
  cases h : alLookup key m with
  | none => simp [alLookup_alUpdate_self]
  | some q =>
    by_cases hlt : q.2.rd < d.rd
    · simp [hlt, alLookup_alUpdate_self]
    · simp [hlt, h]

theorem alLookup_bump_ne (m : BucketMap) {key key' : Int × Int} (p : PathStr)
    (d : PyDate) (h : key' ≠ key) : alLookup key (bump m key' p d) = alLookup key m := by
  unfold bump
  cases alLookup key' m with
  | none => exact alLookup_alUpdate_ne _ _ h
  | some q =>
    by_cases hlt : q.2.rd < d.rd
    · simp [hlt, alLookup_alUpdate_ne _ _ h]
    · simp [hlt]

/-- The keys of a bucket dictionary. -/
def alKeys {β : Type} (m : List ((Int × Int) × β)) : List (Int × Int) :=
  m.map Prod.fst

theorem mem_alKeys_alUpdate {β : Type} {x key : Int × Int} {v : β}
    {m : List ((Int × Int) × β)} (h : x ∈ alKeys (alUpdate key v m)) :
    x = key ∨ x ∈ alKeys m := by
  induction m with
  | nil => simpa [alUpdate, alKeys] using h
  | cons kv t ih =>
    obtain ⟨k, w⟩ := kv
    by_cases hk : k = key
    · subst hk
      simpa [alUpdate, alKeys] using h
    · simp only [alUpdate, hk, if_false, alKeys, List.map_cons, List.mem_cons] at h
      rcases h with h | h
      · simp [alKeys, h]
      · rcases ih h with h | h
        · exact Or.inl h
        · simp [alKeys] at h
          simp [alKeys, h]

theorem alKeys_nodup_alUpdate {β : Type} {key : Int × Int} (v : β)
    {m : List ((Int × Int) × β)} (h : (alKeys m).Nodup) :
    (alKeys (alUpdate key v m)).Nodup := by
  induction m with
  | nil => simp [alUpdate, alKeys]
  | cons kv t ih =>
    obtain ⟨k, w⟩ := kv
    simp only [alKeys, List.map_cons, List.nodup_cons] at h
    by_cases hk : k = key
    · subst hk
      simpa [alUpdate, alKeys, List.nodup_cons] using h
    · simp only [alUpdate, hk, if_false, alKeys, List.map_cons, List.nodup_cons]
      refine ⟨?_, ih h.2⟩
      intro hmem
      rcases mem_alKeys_alUpdate hmem with h1 | h1
      · exact hk h1
      · exact h.1 h1

theorem alKeys_nodup_bump {m : BucketMap} (key : Int × Int) (p : PathStr)
    (d : PyDate) (h : (alKeys m).Nodup) : (alKeys (bump m key p d)).Nodup := by
  unfold bump
  cases alLookup key m with
  | none => exact alKeys_nodup_alUpdate _ h
  | some q =>
    by_cases hlt : q.2.rd < d.rd
    · simpa [hlt] using alKeys_nodup_alUpdate (p, d) h
    · simpa [hlt] using h

theorem mem_of_alKeys_nodup {β : Type} {key : Int × Int} {v : β}
    {m : List ((Int × Int) × β)} (hn : (alKeys m).Nodup) (h : (key, v) ∈ m) :
    alLookup key m = some v := by
  induction m with
  | nil => simp at h
  | cons kv t ih =>
    obtain ⟨k, w⟩ := kv
    simp only [alKeys, List.map_cons, List.nodup_cons] at hn
    rcases List.mem_cons.1 h with h1 | h1
    · injection h1 with h1a h1b
      subst h1a
      simp [alLookup, h1b]
    · have hk : k ≠ key := by
        intro hkk
        subst hkk
        exact hn.1 (by simpa [alKeys] using List.mem_map_of_mem Prod.fst h1)
      simp [alLookup, hk, ih hn.2 h1]

/-! ## The classification loop, field by field -/

theorem classify_keep (today : PyDate) (s : RState) (pd : PathStr × PyDate) :
    (classify today s pd).keep =
      if dailyB today pd.2 then insert pd.1 s.keep else s.keep := by
  unfold classify dailyB
  by_cases h1 : ageDays today pd.2 ≤ 30
  · simp [h1]
  · by_cases h2 : ageDays today pd.2 ≤ 89
    · simp [h1, h2]
    · by_cases h3 : ageDays today pd.2 ≤ 364 <;> simp [h1, h2, h3]

theorem classify_weekly (today : PyDate) (s : RState) (pd : PathStr × PyDate) :
    (classify today s pd).weekly =
      if weeklyB today pd.2 then bump s.weekly (wkey pd.2) pd.1 pd.2
      else s.weekly := by
  unfold classify weeklyB
  by_cases h1 : ageDays today pd.2 ≤ 30
  · have : ¬(31 ≤ ageDays today pd.2 ∧ ageDays today pd.2 ≤ 89) := by omega
    simp [h1, this]
  · by_cases h2 : ageDays today pd.2 ≤ 89
    · have : 31 ≤ ageDays today pd.2 ∧ ageDays today pd.2 ≤ 89 := by omega
      simp [h1, h2, this]
    · have : ¬(31 ≤ ageDays today pd.2 ∧ ageDays today pd.2 ≤ 89) := by omega
      by_cases h3 : ageDays today pd.2 ≤ 364 <;> simp [h1, h2, h3, this]

theorem classify_monthly (today : PyDate) (s : RState) (pd : PathStr × PyDate) :
    (classify today s pd).monthly =
      if monthlyB today pd.2 then bump s.monthly (mkey pd.2) pd.1 pd.2
      else s.monthly := by
  unfold classify monthlyB
  by_cases h1 : ageDays today pd.2 ≤ 30
  · have : ¬(90 ≤ ageDays today pd.2 ∧ ageDays today pd.2 ≤ 364) := by omega
    simp [h1, this]
  · by_cases h2 : ageDays today pd.2 ≤ 89
    · have : ¬(90 ≤ ageDays today pd.2 ∧ ageDays today pd.2 ≤ 364) := by omega
      simp [h1, h2, this]
    · by_cases h3 : ageDays today pd.2 ≤ 364
      · have : 90 ≤ ageDays today pd.2 ∧ ageDays today pd.2 ≤ 364 := by omega
        simp [h1, h2, h3, this]
      · have : ¬(90 ≤ ageDays today pd.2 ∧ ageDays today pd.2 ≤ 364) := by omega
        simp [h1, h2, h3, this]

theorem dailyNames_cons_pos (today : PyDate) (pd : PathStr × PyDate)
    (t : List (PathStr × PyDate)) (h : dailyB today pd.2 = true) :
    dailyNames today (pd :: t) = insert pd.1 (dailyNames today t) := by
  unfold dailyNames
  rw [List.filter_cons, if_pos h, List.map_cons, List.toFinset_cons]

theorem dailyNames_cons_neg (today : PyDate) (pd : PathStr × PyDate)
    (t : List (PathStr × PyDate)) (h : ¬dailyB today pd.2 = true) :
    dailyNames today (pd :: t) = dailyNames today t := by
  unfold dailyNames
  rw [List.filter_cons, if_neg h]

theorem foldl_classify_keep (today : PyDate) (l : List (PathStr × PyDate)) :
    ∀ s : RState, (l.foldl (classify today) s).keep = s.keep ∪ dailyNames today l := by
  induction l with
  | nil => intro s; simp [dailyNames]
  | cons pd t ih =>
    intro s
    rw [List.foldl_cons, ih]
    rw [classify_keep]
    by_cases h : dailyB today pd.2 = true
    · rw [if_pos h, dailyNames_cons_pos today pd t h, Finset.insert_union,
        Finset.union_insert]
    · rw [if_neg h, dailyNames_cons_neg today pd t h]

theorem foldl_classify_weekly (today : PyDate) (key : Int × Int)
    (l : List (PathStr × PyDate)) :
    ∀ s : RState, alLookup key (l.foldl (classify today) s).weekly =
      bumpMany (alLookup key s.weekly) (weeklySel today key l) := by
  induction l with
  | nil => intro s; simp [weeklySel, bumpMany]
  | cons pd t ih =>
    intro s
    rw [List.foldl_cons, ih]
    by_cases hw : weeklyB today pd.2
    · by_cases hk : wkey pd.2 = key
      · have hsel : weeklySel today key (pd :: t) = pd :: weeklySel today key t := by
          simp [weeklySel, List.filter_cons, hw, hk]
        rw [hsel]
        have : alLookup key (classify today s pd).weekly =
            bumpOpt (alLookup key s.weekly) pd := by
          rw [classify_weekly]
          simp only [hw, if_true, hk]
          exact alLookup_bump_self _ _ _ _
        rw [this]
        rfl
      · have hsel : weeklySel today key (pd :: t) = weeklySel today key t := by
          simp [weeklySel, List.filter_cons, hw, hk]
        rw [hsel]
        have : alLookup key (classify today s pd).weekly = alLookup key s.weekly := by
          rw [classify_weekly]
          simp only [hw, if_true]
          exact alLookup_bump_ne _ _ _ hk
        rw [this]
    · have hsel : weeklySel today key (pd :: t) = weeklySel today key t := by
        simp [weeklySel, List.filter_cons, hw]
      rw [hsel]
      have : alLookup key (classify today s pd).weekly = alLookup key s.weekly := by
        rw [classify_weekly]
        simp [hw]
      rw [this]

theorem foldl_classify_monthly (today : PyDate) (key : Int × Int)
    (l : List (PathStr × PyDate)) :
    ∀ s : RState, alLookup key (l.foldl (classify today) s).monthly =
      bumpMany (alLookup key s.monthly) (monthlySel today key l) := by
  induction l with
  | nil => intro s; simp [monthlySel, bumpMany]
  | cons pd t ih =>
    intro s
    rw [List.foldl_cons, ih]
    by_cases hw : monthlyB today pd.2
    · by_cases hk : mkey pd.2 = key
      · have hsel : monthlySel today key (pd :: t) = pd :: monthlySel today key t := by
          simp [monthlySel, List.filter_cons, hw, hk]
        rw [hsel]
        have : alLookup key (classify today s pd).monthly =
            bumpOpt (alLookup key s.monthly) pd := by
          rw [classify_monthly]
          simp only [hw, if_true, hk]
          exact alLookup_bump_self _ _ _ _
        rw [this]
        rfl
      · have hsel : monthlySel today key (pd :: t) = monthlySel today key t := by
          simp [monthlySel, List.filter_cons, hw, hk]
        rw [hsel]
        have : alLookup key (classify today s pd).monthly = alLookup key s.monthly := by
          rw [classify_monthly]
          simp only [hw, if_true]
          exact alLookup_bump_ne _ _ _ hk
        rw [this]
    · have hsel : monthlySel today key (pd :: t) = monthlySel today key t := by
        simp [monthlySel, List.filter_cons, hw]
      rw [hsel]
      have : alLookup key (classify today s pd).monthly = alLookup key s.monthly := by
        rw [classify_monthly]
        simp [hw]
      rw [this]

/-! ## Best-in-bucket selection -/

theorem bumpOpt_isSome (cur : Option (PathStr × PyDate)) (pd : PathStr × PyDate) :
    (bumpOpt cur pd).isSome = true := by
  cases cur with
  | none => rfl
  | some q =>
    unfold bumpOpt
    by_cases h : q.2.rd < pd.2.rd <;> simp [h]

theorem bumpMany_isSome (l : List (PathStr × PyDate)) :
    ∀ cur : Option (PathStr × PyDate), cur.isSome = true →
      (bumpMany cur l).isSome = true := by
  induction l with
  | nil => intro cur h; exact h
  | cons pd t ih =>
    intro cur h
    exact ih (bumpOpt cur pd) (bumpOpt_isSome cur pd)

theorem bumpMany_isSome_of_ne_nil {l : List (PathStr × PyDate)} (h : l ≠ []) :
    (bumpMany none l).isSome = true := by
  cases l with
  | nil => exact absurd rfl h
  | cons pd t =>
    show (bumpMany (bumpOpt none pd) t).isSome = true
    exact bumpMany_isSome t _ (bumpOpt_isSome none pd)

theorem bumpOpt_cases (cur : Option (PathStr × PyDate)) (pd : PathStr × PyDate) :
    bumpOpt cur pd = some pd ∨ bumpOpt cur pd = cur := by
  cases cur with
  | none => exact Or.inl rfl
  | some q =>
    unfold bumpOpt
    by_cases h : q.2.rd < pd.2.rd <;> simp [h]

theorem bumpMany_mem (l : List (PathStr × PyDate)) :
    ∀ (cur : Option (PathStr × PyDate)) (x : PathStr × PyDate),
      bumpMany cur l = some x → cur = some x ∨ x ∈ l := by
  induction l with
  | nil => intro cur x h; exact Or.inl h
  | cons pd t ih =>
    intro cur x h
    have h' : bumpMany (bumpOpt cur pd) t = some x := h
    rcases ih (bumpOpt cur pd) x h' with h1 | h1
    · rcases bumpOpt_cases cur pd with h2 | h2
      · right
        rw [h2] at h1
        injection h1 with h1
        simp [h1]
      · left
        rw [← h2, h1]
    · right
      exact List.mem_cons_of_mem pd h1

theorem bumpOpt_ge_new (cur : Option (PathStr × PyDate)) (pd z : PathStr × PyDate)
    (h : bumpOpt cur pd = some z) : pd.2.rd ≤ z.2.rd := by
  cases cur with
  | none =>
    injection h with h
    rw [h]
  | some q =>
    unfold bumpOpt at h
    by_cases hlt : q.2.rd < pd.2.rd
    · simp only [hlt, if_true] at h
      injection h with h
      rw [h]
    · simp only [hlt, if_false] at h
      injection h with h
      rw [← h]
      omega

theorem bumpOpt_ge_cur (q : PathStr × PyDate) (pd z : PathStr × PyDate)
    (h : bumpOpt (some q) pd = some z) : q.2.rd ≤ z.2.rd := by
  unfold bumpOpt at h
  by_cases hlt : q.2.rd < pd.2.rd
  · simp only [hlt, if_true] at h
    injection h with h
    rw [← h]
    omega
  · simp only [hlt, if_false] at h
    injection h with h
    rw [h]

theorem bumpMany_ge (l : List (PathStr × PyDate)) :
    ∀ (cur : Option (PathStr × PyDate)) (x : PathStr × PyDate),
      bumpMany cur l = some x →
      (∀ y ∈ l, y.2.rd ≤ x.2.rd) ∧ (∀ c, cur = some c → c.2.rd ≤ x.2.rd) := by
  induction l with
  | nil =>
    intro cur x h
    refine ⟨by simp, ?_⟩
    intro c hc
    rw [hc] at h
    injection h with h
    rw [h]
  | cons pd t ih =>
    intro cur x h
    have h' : bumpMany (bumpOpt cur pd) t = some x := h
    obtain ⟨h1, h2⟩ := ih (bumpOpt cur pd) x h'
    have hsome : (bumpOpt cur pd).isSome = true := bumpOpt_isSome cur pd
    obtain ⟨z, hz⟩ := Option.isSome_iff_exists.1 hsome
    have hz2 : z.2.rd ≤ x.2.rd := h2 z hz
    constructor
    · intro y hy
      rcases List.mem_cons.1 hy with h3 | h3
      · have := bumpOpt_ge_new cur pd z hz
        rw [h3]
        omega
      · exact h1 y h3
    · intro c hc
      rw [hc] at hz
      have := bumpOpt_ge_cur c pd z hz
      omega

theorem pairwise_rd_inj {l : List (PathStr × PyDate)}
    (hp : l.Pairwise (fun a b => a.2.rd ≠ b.2.rd)) :
    ∀ x ∈ l, ∀ z ∈ l, x.2.rd = z.2.rd → x = z := by
  induction l with
  | nil => intro x hx; simp at hx
  | cons a t ih =>
    rw [List.pairwise_cons] at hp
    intro x hx z hz he
    rcases List.mem_cons.1 hx with hx1 | hx1 <;> rcases List.mem_cons.1 hz with hz1 | hz1
    · rw [hx1, hz1]
    · exfalso
      rw [hx1] at he
      exact hp.1 z hz1 he
    · exfalso
      rw [hz1] at he
      exact hp.1 x hx1 he.symm
    · exact ih hp.2 x hx1 z hz1 he

theorem bumpMany_eq_of_max {l : List (PathStr × PyDate)}
    (hp : l.Pairwise (fun a b => a.2.rd ≠ b.2.rd)) {x : PathStr × PyDate}
    (hx : x ∈ l) (hmax : ∀ y ∈ l, y.2.rd ≤ x.2.rd) : bumpMany none l = some x := by
  have hne : l ≠ [] := by
    intro h
    rw [h] at hx
    simp at hx
  obtain ⟨z, hz⟩ := Option.isSome_iff_exists.1 (bumpMany_isSome_of_ne_nil hne)
  have hzmem : z ∈ l := by
    rcases bumpMany_mem l none z hz with h1 | h1
    · cases h1
    · exact h1
  have h1 : x.2.rd ≤ z.2.rd := (bumpMany_ge l none z hz).1 x hx
  have h2 : z.2.rd ≤ x.2.rd := hmax z hzmem
  have : z = x := pairwise_rd_inj hp z hzmem x hx (by omega)
  rw [hz, this]

theorem nodup_fst_eq {l : List (PathStr × PyDate)}
    (hn : (l.map Prod.fst).Nodup) {p : PathStr} {a b : PyDate}
    (ha : (p, a) ∈ l) (hb : (p, b) ∈ l) : a = b := by
  induction l with
  | nil => simp at ha
  | cons x t ih =>
    rw [List.map_cons, List.nodup_cons] at hn
    rcases List.mem_cons.1 ha with h1 | h1 <;> rcases List.mem_cons.1 hb with h2 | h2
    · rw [← h1] at h2
      injection h2 with _ h2
      exact h2.symm
    · exfalso
      apply hn.1
      rw [← h1]
      show p ∈ List.map Prod.fst t
      exact List.mem_map_of_mem Prod.fst h2
    · exfalso
      apply hn.1
      rw [← h2]
      show p ∈ List.map Prod.fst t
      exact List.mem_map_of_mem Prod.fst h1
    · exact ih hn.2 h1 h2

/-! ## Invariants of the final retention state -/

theorem foldl_classify_keys_nodup (today : PyDate) (l : List (PathStr × PyDate)) :
    ∀ s : RState, (alKeys s.weekly).Nodup → (alKeys s.monthly).Nodup →
      (alKeys (l.foldl (classify today) s).weekly).Nodup ∧
      (alKeys (l.foldl (classify today) s).monthly).Nodup := by
  induction l with
  | nil => intro s hw hm; exact ⟨hw, hm⟩
  | cons pd t ih =>
    intro s hw hm
    rw [List.foldl_cons]
    apply ih
    · rw [classify_weekly]
      by_cases h : weeklyB today pd.2 = true
      · rw [if_pos h]
        exact alKeys_nodup_bump _ _ _ hw
      · rw [if_neg h]
        exact hw
    · rw [classify_monthly]
      by_cases h : monthlyB today pd.2 = true
      · rw [if_pos h]
        exact alKeys_nodup_bump _ _ _ hm
      · rw [if_neg h]
        exact hm

theorem retentionState_keep (today : PyDate) (bundles : List (PathStr × PyDate)) :
    (retentionState today bundles).keep = dailyNames today bundles := by
  unfold retentionState
  rw [foldl_classify_keep]
  show ∅ ∪ dailyNames today bundles = dailyNames today bundles
  exact Finset.empty_union _

theorem retentionState_weekly (today : PyDate) (bundles : List (PathStr × PyDate))
    (key : Int × Int) : alLookup key (retentionState today bundles).weekly =
      bumpMany none (weeklySel today key bundles) := by
  unfold retentionState
  rw [foldl_classify_weekly]
  rfl

theorem retentionState_monthly (today : PyDate) (bundles : List (PathStr × PyDate))
    (key : Int × Int) : alLookup key (retentionState today bundles).monthly =
      bumpMany none (monthlySel today key bundles) := by
  unfold retentionState
  rw [foldl_classify_monthly]
  rfl

theorem retentionState_keys_nodup (today : PyDate)
    (bundles : List (PathStr × PyDate)) :
    (alKeys (retentionState today bundles).weekly).Nodup ∧
    (alKeys (retentionState today bundles).monthly).Nodup := by
  unfold retentionState
  exact foldl_classify_keys_nodup today bundles ⟨∅, [], []⟩ List.nodup_nil List.nodup_nil

theorem mem_bucketNames {p : PathStr} {m : BucketMap} :
    p ∈ bucketNames m ↔ ∃ kv ∈ m, kv.2.1 = p := by
  unfold bucketNames
  rw [List.mem_toFinset, List.mem_map]

theorem mem_weeklySel {today : PyDate} {key : Int × Int}
    {l : List (PathStr × PyDate)} {pd : PathStr × PyDate} :
    pd ∈ weeklySel today key l ↔
      pd ∈ l ∧ weeklyB today pd.2 = true ∧ wkey pd.2 = key := by
  simp [weeklySel, List.mem_filter, and_assoc]

theorem mem_monthlySel {today : PyDate} {key : Int × Int}
    {l : List (PathStr × PyDate)} {pd : PathStr × PyDate} :
    pd ∈ monthlySel today key l ↔
      pd ∈ l ∧ monthlyB today pd.2 = true ∧ mkey pd.2 = key := by
  simp [monthlySel, List.mem_filter, and_assoc]

/-- Central characterisation of the retain set: an artifact's path survives
`retention_cleanup` exactly when the artifact is daily, or is the strictly
latest artifact of its weekly ISO bucket, or the strictly latest of its
monthly bucket.  Requires distinct paths (true of a directory listing) and
distinct dates (the claim's "the single artifact with the latest date"
presupposes a unique latest). -/
theorem keep_mem_iff (today : PyDate) (bundles : List (PathStr × PyDate))
    (hd : bundles.Pairwise (fun a b => a.2.rd ≠ b.2.rd))
    (hn : (bundles.map Prod.fst).Nodup)
    {p : PathStr} {d : PyDate} (hmem : (p, d) ∈ bundles) :
    p ∈ keepSet today bundles ↔
      ageDays today d ≤ 30 ∨
      ((31 ≤ ageDays today d ∧ ageDays today d ≤ 89) ∧
        ∀ q e, (q, e) ∈ bundles → 31 ≤ ageDays today e → ageDays today e ≤ 89 →
          wkey e = wkey d → e.rd ≤ d.rd) ∨
      ((90 ≤ ageDays today d ∧ ageDays today d ≤ 364) ∧
        ∀ q e, (q, e) ∈ bundles → 90 ≤ ageDays today e → ageDays today e ≤ 364 →
          mkey e = mkey d → e.rd ≤ d.rd) := by
  constructor
  · intro h
    rcases Finset.mem_union.1 h with h1 | h1
    · rcases Finset.mem_union.1 h1 with h2 | h2
      · -- daily part
        rw [retentionState_keep] at h2
        unfold dailyNames at h2
        rw [List.mem_toFinset, List.mem_map] at h2
        obtain ⟨pd', hpd', hfst⟩ := h2
        rw [List.mem_filter] at hpd'
        have hmem' : (p, pd'.2) ∈ bundles := by
          have : pd' = (p, pd'.2) := by
            rw [← hfst]
          rw [← this]
          exact hpd'.1
        have hde : pd'.2 = d := nodup_fst_eq hn hmem' hmem
        left
        have := hpd'.2
        unfold dailyB at this
        rw [hde] at this
        exact of_decide_eq_true this
      · -- weekly part
        rw [mem_bucketNames] at h2
        obtain ⟨kv, hkv, hfst⟩ := h2
        have hlook : alLookup kv.1 (retentionState today bundles).weekly = some kv.2 := by
          apply mem_of_alKeys_nodup (retentionState_keys_nodup today bundles).1
          exact (Prod.mk.eta (p := kv)) ▸ hkv
        rw [retentionState_weekly] at hlook
        have hselmem : kv.2 ∈ weeklySel today kv.1 bundles := by
          rcases bumpMany_mem _ none kv.2 hlook with hc | hc
          · cases hc
          · exact hc
        rw [mem_weeklySel] at hselmem
        have hmem' : (p, kv.2.2) ∈ bundles := by
          have : kv.2 = (p, kv.2.2) := by
            rw [← hfst]
          rw [← this]
          exact hselmem.1
        have hde : kv.2.2 = d := nodup_fst_eq hn hmem' hmem
        right; left
        have hw := hselmem.2.1
        unfold weeklyB at hw
        rw [hde] at hw
        refine ⟨of_decide_eq_true hw, ?_⟩
        intro q e hqe h31 h89 hk
        have hqsel : (q, e) ∈ weeklySel today kv.1 bundles := by
          rw [mem_weeklySel]
          refine ⟨hqe, ?_, ?_⟩
          · unfold weeklyB
            exact decide_eq_true ⟨h31, h89⟩
          · show wkey e = kv.1
            rw [hk, ← hde]
            exact hselmem.2.2
        have := (bumpMany_ge _ none kv.2 hlook).1 (q, e) hqsel
        show e.rd ≤ d.rd
        rw [← hde]
        exact this
    · -- monthly part
      rw [mem_bucketNames] at h1
      obtain ⟨kv, hkv, hfst⟩ := h1
      have hlook : alLookup kv.1 (retentionState today bundles).monthly = some kv.2 := by
        apply mem_of_alKeys_nodup (retentionState_keys_nodup today bundles).2
        exact (Prod.mk.eta (p := kv)) ▸ hkv
      rw [retentionState_monthly] at hlook
      have hselmem : kv.2 ∈ monthlySel today kv.1 bundles := by
        rcases bumpMany_mem _ none kv.2 hlook with hc | hc
        · cases hc
        · exact hc
      rw [mem_monthlySel] at hselmem
      have hmem' : (p, kv.2.2) ∈ bundles := by
        have : kv.2 = (p, kv.2.2) := by
          rw [← hfst]
        rw [← this]
        exact hselmem.1
      have hde : kv.2.2 = d := nodup_fst_eq hn hmem' hmem
      right; right
      have hw := hselmem.2.1
      unfold monthlyB at hw
      rw [hde] at hw
      refine ⟨of_decide_eq_true hw, ?_⟩
      intro q e hqe h90 h364 hk
      have hqsel : (q, e) ∈ monthlySel today kv.1 bundles := by
        rw [mem_monthlySel]
        refine ⟨hqe, ?_, ?_⟩
        · unfold monthlyB
          exact decide_eq_true ⟨h90, h364⟩
        · show mkey e = kv.1
          rw [hk, ← hde]
          exact hselmem.2.2
      have := (bumpMany_ge _ none kv.2 hlook).1 (q, e) hqsel
      show e.rd ≤ d.rd
      rw [← hde]
      exact this
  · intro h
    rcases h with h | h | h
    · -- daily
      apply Finset.mem_union_left
      apply Finset.mem_union_left
      rw [retentionState_keep]
      unfold dailyNames
      rw [List.mem_toFinset, List.mem_map]
      refine ⟨(p, d), ?_, rfl⟩
      rw [List.mem_filter]
      exact ⟨hmem, decide_eq_true h⟩
    · -- weekly
      obtain ⟨⟨h31, h89⟩, hmax⟩ := h
      apply Finset.mem_union_left
      apply Finset.mem_union_right
      have hselmem : (p, d) ∈ weeklySel today (wkey d) bundles := by
        rw [mem_weeklySel]
        exact ⟨hmem, decide_eq_true ⟨h31, h89⟩, rfl⟩
      have hpair : (weeklySel today (wkey d) bundles).Pairwise
          (fun a b => a.2.rd ≠ b.2.rd) :=
        hd.sublist (List.filter_sublist bundles)
      have hmax' : ∀ y ∈ weeklySel today (wkey d) bundles, y.2.rd ≤ d.rd := by
        intro y hy
        rw [mem_weeklySel] at hy
        have hy2 := of_decide_eq_true hy.2.1
        have : (y.1, y.2) ∈ bundles := by
          rw [Prod.mk.eta]
          exact hy.1
        exact hmax y.1 y.2 this hy2.1 hy2.2 hy.2.2
      have hbm : bumpMany none (weeklySel today (wkey d) bundles) = some (p, d) :=
        bumpMany_eq_of_max hpair hselmem hmax'
      rw [mem_bucketNames]
      refine ⟨(wkey d, (p, d)), ?_, rfl⟩
      apply alLookup_mem
      rw [retentionState_weekly]
      exact hbm
    · -- monthly
      obtain ⟨⟨h90, h364⟩, hmax⟩ := h
      apply Finset.mem_union_right
      have hselmem : (p, d) ∈ monthlySel today (mkey d) bundles := by
        rw [mem_monthlySel]
        exact ⟨hmem, decide_eq_true ⟨h90, h364⟩, rfl⟩
      have hpair : (monthlySel today (mkey d) bundles).Pairwise
          (fun a b => a.2.rd ≠ b.2.rd) :=
        hd.sublist (List.filter_sublist bundles)
      have hmax' : ∀ y ∈ monthlySel today (mkey d) bundles, y.2.rd ≤ d.rd := by
        intro y hy
        rw [mem_monthlySel] at hy
        have hy2 := of_decide_eq_true hy.2.1
        have : (y.1, y.2) ∈ bundles := by
          rw [Prod.mk.eta]
          exact hy.1
        exact hmax y.1 y.2 this hy2.1 hy2.2 hy.2.2
      have hbm : bumpMany none (monthlySel today (mkey d) bundles) = some (p, d) :=
        bumpMany_eq_of_max hpair hselmem hmax'
      rw [mem_bucketNames]
      refine ⟨(mkey d, (p, d)), ?_, rfl⟩
      apply alLookup_mem
      rw [retentionState_monthly]
      exact hbm

theorem mem_toDelete_iff (today : PyDate) (bundles : List (PathStr × PyDate))
    {p : PathStr} {d : PyDate} (hmem : (p, d) ∈ bundles) :
    p ∈ toDelete today bundles ↔ p ∉ keepSet today bundles := by
  unfold toDelete
  rw [List.mem_map]
  constructor
  · rintro ⟨pd', hpd', hfst⟩
    rw [List.mem_filter] at hpd'
    rw [← hfst]
    exact of_decide_eq_true hpd'.2
  · intro h
    refine ⟨(p, d), ?_, rfl⟩
    rw [List.mem_filter]
    exact ⟨hmem, decide_eq_true h⟩

theorem mem_keptBundles {today : PyDate} {bundles : List (PathStr × PyDate)}
    {pd : PathStr × PyDate} :
    pd ∈ keptBundles today bundles ↔
      pd ∈ bundles ∧ pd.1 ∈ keepSet today bundles := by
  unfold keptBundles
  rw [List.mem_filter]
  constructor
  · exact fun h => ⟨h.1, of_decide_eq_true h.2⟩
  · exact fun h => ⟨h.1, decide_eq_true h.2⟩

/-- C1: for every list of dated snapshot artifacts and fixed `today`, the
retain set of `retention_cleanup` is exactly: every artifact of age at most
30 days; per ISO (year, week) bucket among artifacts of age 31..89, the
single artifact with the chronologically latest date; per (year, month)
bucket among artifacts of age 90..364, the single artifact with the latest
date; and no artifact of age 365 or more (no disjunct admits such an age).
Every artifact whose path is not retained is deleted.  The hypotheses ask
for pairwise distinct paths (a directory listing) and pairwise distinct
dates (the claim's "the single artifact with the latest date" presupposes
a unique latest one). -/
theorem c1_retention_retain_set (today : PyDate) (bundles : List (PathStr × PyDate))
    (hd : bundles.Pairwise (fun a b => a.2.rd ≠ b.2.rd))
    (hn : (bundles.map Prod.fst).Nodup) :
    ∀ p d, (p, d) ∈ bundles →
      (p ∈ keepSet today bundles ↔
        ageDays today d ≤ 30 ∨
        ((31 ≤ ageDays today d ∧ ageDays today d ≤ 89) ∧
          ∀ q e, (q, e) ∈ bundles → 31 ≤ ageDays today e → ageDays today e ≤ 89 →
            wkey e = wkey d → e.rd ≤ d.rd) ∨
        ((90 ≤ ageDays today d ∧ ageDays today d ≤ 364) ∧
          ∀ q e, (q, e) ∈ bundles → 90 ≤ ageDays today e → ageDays today e ≤ 364 →
            mkey e = mkey d → e.rd ≤ d.rd)) ∧
      (p ∈ toDelete today bundles ↔ p ∉ keepSet today bundles) := by
  intro p d hmem
  exact ⟨keep_mem_iff today bundles hd hn hmem, mem_toDelete_iff today bundles hmem⟩

/-- Witness for C1 at a concrete four-artifact directory: a daily artifact,
two weekly artifacts sharing one ISO bucket, and an expired artifact. -/
theorem c1_retention_retain_set_witness :
    (([(['a'], (⟨995, 2024, 6, 2024, 23⟩ : PyDate)),
       (['b'], ⟨950, 2024, 4, 2024, 15⟩),
       (['c'], ⟨949, 2024, 4, 2024, 15⟩),
       (['d'], ⟨0, 2021, 9, 2021, 36⟩)] :
        List (PathStr × PyDate)).Pairwise (fun a b => a.2.rd ≠ b.2.rd)) ∧
    ((['c'], (⟨949, 2024, 4, 2024, 15⟩ : PyDate)) ∈
      ([(['a'], (⟨995, 2024, 6, 2024, 23⟩ : PyDate)),
        (['b'], ⟨950, 2024, 4, 2024, 15⟩),
        (['c'], ⟨949, 2024, 4, 2024, 15⟩),
        (['d'], ⟨0, 2021, 9, 2021, 36⟩)] : List (PathStr × PyDate))) ∧
    ((['c'] ∈ keepSet ⟨1000, 2024, 6, 2024, 23⟩
        [(['a'], ⟨995, 2024, 6, 2024, 23⟩),
         (['b'], ⟨950, 2024, 4, 2024, 15⟩),
         (['c'], ⟨949, 2024, 4, 2024, 15⟩),
         (['d'], ⟨0, 2021, 9, 2021, 36⟩)] ↔
      ageDays ⟨1000, 2024, 6, 2024, 23⟩ ⟨949, 2024, 4, 2024, 15⟩ ≤ 30 ∨
      ((31 ≤ ageDays ⟨1000, 2024, 6, 2024, 23⟩ ⟨949, 2024, 4, 2024, 15⟩ ∧
          ageDays ⟨1000, 2024, 6, 2024, 23⟩ ⟨949, 2024, 4, 2024, 15⟩ ≤ 89) ∧
        ∀ q e, (q, e) ∈
            ([(['a'], (⟨995, 2024, 6, 2024, 23⟩ : PyDate)),
              (['b'], ⟨950, 2024, 4, 2024, 15⟩),
              (['c'], ⟨949, 2024, 4, 2024, 15⟩),
              (['d'], ⟨0, 2021, 9, 2021, 36⟩)] : List (PathStr × PyDate)) →
          31 ≤ ageDays ⟨1000, 2024, 6, 2024, 23⟩ e →
          ageDays ⟨1000, 2024, 6, 2024, 23⟩ e ≤ 89 →
          wkey e = wkey ⟨949, 2024, 4, 2024, 15⟩ →
          e.rd ≤ (⟨949, 2024, 4, 2024, 15⟩ : PyDate).rd) ∨
      ((90 ≤ ageDays ⟨1000, 2024, 6, 2024, 23⟩ ⟨949, 2024, 4, 2024, 15⟩ ∧
          ageDays ⟨1000, 2024, 6, 2024, 23⟩ ⟨949, 2024, 4, 2024, 15⟩ ≤ 364) ∧
        ∀ q e, (q, e) ∈
            ([(['a'], (⟨995, 2024, 6, 2024, 23⟩ : PyDate)),
              (['b'], ⟨950, 2024, 4, 2024, 15⟩),
              (['c'], ⟨949, 2024, 4, 2024, 15⟩),
              (['d'], ⟨0, 2021, 9, 2021, 36⟩)] : List (PathStr × PyDate)) →
          90 ≤ ageDays ⟨1000, 2024, 6, 2024, 23⟩ e →
          ageDays ⟨1000, 2024, 6, 2024, 23⟩ e ≤ 364 →
          mkey e = mkey ⟨949, 2024, 4, 2024, 15⟩ →
          e.rd ≤ (⟨949, 2024, 4, 2024, 15⟩ : PyDate).rd)) ∧
    (['c'] ∈ toDelete ⟨1000, 2024, 6, 2024, 23⟩
        [(['a'], ⟨995, 2024, 6, 2024, 23⟩),
         (['b'], ⟨950, 2024, 4, 2024, 15⟩),
         (['c'], ⟨949, 2024, 4, 2024, 15⟩),
         (['d'], ⟨0, 2021, 9, 2021, 36⟩)] ↔
      ['c'] ∉ keepSet ⟨1000, 2024, 6, 2024, 23⟩
        [(['a'], ⟨995, 2024, 6, 2024, 23⟩),
         (['b'], ⟨950, 2024, 4, 2024, 15⟩),
         (['c'], ⟨949, 2024, 4, 2024, 15⟩),
         (['d'], ⟨0, 2021, 9, 2021, 36⟩)])) :=
  ⟨by decide, by decide,
    c1_retention_retain_set ⟨1000, 2024, 6, 2024, 23⟩
      [(['a'], ⟨995, 2024, 6, 2024, 23⟩),
       (['b'], ⟨950, 2024, 4, 2024, 15⟩),
       (['c'], ⟨949, 2024, 4, 2024, 15⟩),
       (['d'], ⟨0, 2021, 9, 2021, 36⟩)]
      (by decide) (by decide) ['c'] ⟨949, 2024, 4, 2024, 15⟩ (by decide)⟩

theorem kept_still_kept (today : PyDate) (bundles : List (PathStr × PyDate))
    (hd : bundles.Pairwise (fun a b => a.2.rd ≠ b.2.rd))
    (hn : (bundles.map Prod.fst).Nodup) :
    ∀ pd ∈ keptBundles today bundles,
      pd.1 ∈ keepSet today (keptBundles today bundles) := by
  have hsub : List.Sublist (keptBundles today bundles) bundles :=
    List.filter_sublist bundles
  have hd' : (keptBundles today bundles).Pairwise (fun a b => a.2.rd ≠ b.2.rd) :=
    hd.sublist hsub
  have hn' : ((keptBundles today bundles).map Prod.fst).Nodup :=
    hn.sublist (hsub.map Prod.fst)
  intro pd hpd
  have hpd' := mem_keptBundles.1 hpd
  have hmem : (pd.1, pd.2) ∈ bundles := by
    rw [Prod.mk.eta]
    exact hpd'.1
  have hmem' : (pd.1, pd.2) ∈ keptBundles today bundles := by
    rw [Prod.mk.eta]
    exact hpd
  have hkeep := (keep_mem_iff today bundles hd hn hmem).1 hpd'.2
  apply (keep_mem_iff today (keptBundles today bundles) hd' hn' hmem').2
  rcases hkeep with h | h | h
  · exact Or.inl h
  · right; left
    refine ⟨h.1, ?_⟩
    intro q e hqe h31 h89 hk
    exact h.2 q e (mem_keptBundles.1 hqe).1 h31 h89 hk
  · right; right
    refine ⟨h.1, ?_⟩
    intro q e hqe h90 h364 hk
    exact h.2 q e (mem_keptBundles.1 hqe).1 h90 h364 hk

/-- C8: retention is idempotent.  Applying `retention_cleanup` to the
directory state a first application produced deletes nothing further, every
surviving weekly-tier (resp. monthly-tier) bucket has exactly one member,
and that member is the bucket's latest.  Same hypotheses as C1: distinct
paths and distinct dates. -/
theorem c8_retention_idempotent (today : PyDate) (bundles : List (PathStr × PyDate))
    (hd : bundles.Pairwise (fun a b => a.2.rd ≠ b.2.rd))
    (hn : (bundles.map Prod.fst).Nodup) :
    toDelete today (keptBundles today bundles) = [] ∧
    (∀ pd qd, pd ∈ keptBundles today bundles → qd ∈ keptBundles today bundles →
      weeklyB today pd.2 = true → weeklyB today qd.2 = true →
      wkey pd.2 = wkey qd.2 → pd = qd) ∧
    (∀ pd qd, pd ∈ keptBundles today bundles → qd ∈ keptBundles today bundles →
      monthlyB today pd.2 = true → monthlyB today qd.2 = true →
      mkey pd.2 = mkey qd.2 → pd = qd) := by
  refine ⟨?_, ?_, ?_⟩
  · unfold toDelete
    have : (keptBundles today bundles).filter
        (fun pd => pd.1 ∉ keepSet today (keptBundles today bundles)) = [] := by
      rw [List.filter_eq_nil_iff]
      intro pd hpd
      have := kept_still_kept today bundles hd hn pd hpd
      simp [this]
    rw [this]
    rfl
  · intro pd qd hpd hqd hw1 hw2 hk
    have hpdb := (mem_keptBundles.1 hpd).1
    have hqdb := (mem_keptBundles.1 hqd).1
    have hpd2 : (pd.1, pd.2) ∈ bundles := by rw [Prod.mk.eta]; exact hpdb
    have hqd2 : (qd.1, qd.2) ∈ bundles := by rw [Prod.mk.eta]; exact hqdb
    have hw1' := of_decide_eq_true hw1
    have hw2' := of_decide_eq_true hw2
    have hkeep1 := (keep_mem_iff today bundles hd hn hpd2).1 (mem_keptBundles.1 hpd).2
    have hkeep2 := (keep_mem_iff today bundles hd hn hqd2).1 (mem_keptBundles.1 hqd).2
    have hmax1 : ∀ q e, (q, e) ∈ bundles → 31 ≤ ageDays today e →
        ageDays today e ≤ 89 → wkey e = wkey pd.2 → e.rd ≤ pd.2.rd := by
      rcases hkeep1 with h | h | h
      · exfalso; omega
      · exact h.2
      · exfalso; omega
    have hmax2 : ∀ q e, (q, e) ∈ bundles → 31 ≤ ageDays today e →
        ageDays today e ≤ 89 → wkey e = wkey qd.2 → e.rd ≤ qd.2.rd := by
      rcases hkeep2 with h | h | h
      · exfalso; omega
      · exact h.2
      · exfalso; omega
    have h1 : qd.2.rd ≤ pd.2.rd := hmax1 qd.1 qd.2 hqd2 hw2'.1 hw2'.2 hk.symm
    have h2 : pd.2.rd ≤ qd.2.rd := hmax2 pd.1 pd.2 hpd2 hw1'.1 hw1'.2 hk
    exact pairwise_rd_inj hd pd hpdb qd hqdb (by omega)
  · intro pd qd hpd hqd hw1 hw2 hk
    have hpdb := (mem_keptBundles.1 hpd).1
    have hqdb := (mem_keptBundles.1 hqd).1
    have hpd2 : (pd.1, pd.2) ∈ bundles := by rw [Prod.mk.eta]; exact hpdb
    have hqd2 : (qd.1, qd.2) ∈ bundles := by rw [Prod.mk.eta]; exact hqdb
    have hw1' := of_decide_eq_true hw1
    have hw2' := of_decide_eq_true hw2
    have hkeep1 := (keep_mem_iff today bundles hd hn hpd2).1 (mem_keptBundles.1 hpd).2
    have hkeep2 := (keep_mem_iff today bundles hd hn hqd2).1 (mem_keptBundles.1 hqd).2
    have hmax1 : ∀ q e, (q, e) ∈ bundles → 90 ≤ ageDays today e →
        ageDays today e ≤ 364 → mkey e = mkey pd.2 → e.rd ≤ pd.2.rd := by
      rcases hkeep1 with h | h | h
      · exfalso; omega
      · exfalso; omega
      · exact h.2
    have hmax2 : ∀ q e, (q, e) ∈ bundles → 90 ≤ ageDays today e →
        ageDays today e ≤ 364 → mkey e = mkey qd.2 → e.rd ≤ qd.2.rd := by
      rcases hkeep2 with h | h | h
      · exfalso; omega
      · exfalso; omega
      · exact h.2
    have h1 : qd.2.rd ≤ pd.2.rd := hmax1 qd.1 qd.2 hqd2 hw2'.1 hw2'.2 hk.symm
    have h2 : pd.2.rd ≤ qd.2.rd := hmax2 pd.1 pd.2 hpd2 hw1'.1 hw1'.2 hk
    exact pairwise_rd_inj hd pd hpdb qd hqdb (by omega)

/-- Witness for C8 at the same concrete four-artifact directory as C1. -/
theorem c8_retention_idempotent_witness :
    (([(['a'], (⟨995, 2024, 6, 2024, 23⟩ : PyDate)),
       (['b'], ⟨950, 2024, 4, 2024, 15⟩),
       (['c'], ⟨949, 2024, 4, 2024, 15⟩),
       (['d'], ⟨0, 2021, 9, 2021, 36⟩)] :
        List (PathStr × PyDate)).Pairwise (fun a b => a.2.rd ≠ b.2.rd)) ∧
    toDelete ⟨1000, 2024, 6, 2024, 23⟩
      (keptBundles ⟨1000, 2024, 6, 2024, 23⟩
        [(['a'], ⟨995, 2024, 6, 2024, 23⟩),
         (['b'], ⟨950, 2024, 4, 2024, 15⟩),
         (['c'], ⟨949, 2024, 4, 2024, 15⟩),
         (['d'], ⟨0, 2021, 9, 2021, 36⟩)]) = [] :=
  ⟨by decide,
    (c8_retention_idempotent ⟨1000, 2024, 6, 2024, 23⟩
      [(['a'], ⟨995, 2024, 6, 2024, 23⟩),
       (['b'], ⟨950, 2024, 4, 2024, 15⟩),
       (['c'], ⟨949, 2024, 4, 2024, 15⟩),
       (['d'], ⟨0, 2021, 9, 2021, 36⟩)]
      (by decide) (by decide)).1⟩

/-! ## Artifact file names

`BUNDLE_RE = re.compile(r"^work-backup-(\d{4}-\d{2}-\d{2})\.(bundle|skipped)$")`
(line 392) and the shell pattern `work-backup-*.*` used by the `glob` calls. -/

/-- ASCII digit, the `\d` of the pattern (artifact names are ASCII). -/
def isDigitCh (c : Char) : Bool := decide ('0' ≤ c) && decide (c ≤ '9')

/-- The date group `\d{4}-\d{2}-\d{2}`. -/
def dateGroupOk (s : PathStr) : Bool :=
  match s with
  | [y1, y2, y3, y4, s1, m1, m2, s2, d1, d2] =>
    isDigitCh y1 && isDigitCh y2 && isDigitCh y3 && isDigitCh y4 &&
    decide (s1 = '-') && isDigitCh m1 && isDigitCh m2 &&
    decide (s2 = '-') && isDigitCh d1 && isDigitCh d2
  | _ => false

/-- `BUNDLE_RE.match(name)`: the anchored match of
`work-backup-(\d{4}-\d{2}-\d{2})\.(bundle|skipped)`.  Returns the date
group and whether the extension group is `bundle` (`true`) or `skipped`
(`false`); `none` when the name does not match. -/
def bundleReMatch (name : PathStr) : Option (PathStr × Bool) :=
  if ("work-backup-".data).isPrefixOf name then
    let rest := name.drop 12
    let datePart := rest.take 10
    let ext := rest.drop 10
    if dateGroupOk datePart then
      if ext = ".bundle".data then some (datePart, true)
      else if ext = ".skipped".data then some (datePart, false)
      else none
    else none
  else none

/-- The shell pattern `work-backup-*.*` of the `glob` calls: the fixed stem
`work-backup-` followed by any text that contains a dot. -/
def globMatch (name : PathStr) : Bool :=
  ("work-backup-".data).isPrefixOf name && (name.drop 12).contains '.'

/-- Python `e.endswith(".skipped")` (line 406). -/
def endsSkipped (name : PathStr) : Bool := (".skipped".data).isSuffixOf name

/-- Python string comparison: lexicographic by code point, with a proper
initial segment smaller than its extensions. -/
def strLe : PathStr → PathStr → Bool
  | [], _ => true
  | _ :: _, [] => false
  | a :: as, b :: bs => if a < b then true else if b < a then false else strLe as bs

/-- Python `sorted` on file names (stable; all globbed paths share the
directory prefix, so sorting the full paths orders the base names). -/
def sortNames (l : List PathStr) : List PathStr :=
  l.insertionSort (fun a b => strLe a b = true)

/-- The artifact-name pipeline shared by `should_force_bundle`
(lines 400-402) and `retention_cleanup` (lines 452-454): glob
`work-backup-*.*`, sort, keep the names matching `BUNDLE_RE`. -/
def matchingArtifacts (names : List PathStr) : List PathStr :=
  (sortNames (names.filter globMatch)).filter (fun n => (bundleReMatch n).isSome)

/-- `MAX_CONSECUTIVE_SKIPPED = 10` (line 393). -/
def MAX_CONSECUTIVE_SKIPPED : Nat := 10

/-- `should_force_bundle(bundle_dir)` (lines 396-406).  `dirOk` models
`bundle_dir and os.path.isdir(bundle_dir)`; `names` is the directory
listing. -/
def shouldForceBundle (dirOk : Bool) (names : List PathStr) : Bool :=
  if !dirOk then false
  else
    let entries := matchingArtifacts names
    let recent := entries.drop (entries.length - MAX_CONSECUTIVE_SKIPPED)
    if recent.length < MAX_CONSECUTIVE_SKIPPED then false
    else recent.all endsSkipped

/-- Line 604 of `main`: `force = not unbundled and should_force_bundle(bundle_dir)`. -/
def forcedBundle (unbundled : Bool) (dirOk : Bool) (names : List PathStr) : Bool :=
  !unbundled && shouldForceBundle dirOk names

/-! ## Name-level retention

`retention_cleanup` itself starts from the directory listing: it globs
`work-backup-*.*`, sorts, filters by `BUNDLE_RE` and parses each date
group with `date.fromisoformat` (Python library code, outside this
repository), abstracted here as a date oracle applied to the matched
group. -/

/-- The `(path, date)` list `bundles` built in lines 451-457. -/
def retentionBundles (dates : PathStr → PyDate) (names : List PathStr) :
    List (PathStr × PyDate) :=
  (matchingArtifacts names).map
    (fun n => (n, dates (((bundleReMatch n).map Prod.fst).getD [])))

/-- The names `retention_cleanup` deletes, starting from the directory
listing. -/
def retentionDeleteNames (today : PyDate) (dates : PathStr → PyDate)
    (names : List PathStr) : List PathStr :=
  toDelete today (retentionBundles dates names)

/-- The names `retention_cleanup` retains, starting from the directory
listing. -/
def retentionKeepNames (today : PyDate) (dates : PathStr → PyDate)
    (names : List PathStr) : Finset PathStr :=
  keepSet today (retentionBundles dates names)

/-- C3: a forced snapshot (`force` in `main`, line 604) is produced exactly
when the head is unchanged since the last bundle (`not unbundled`), the
bundle directory is usable, and the directory holds at least
`MAX_CONSECUTIVE_SKIPPED = 10` pattern-matching artifacts whose 10 most
recent (the last ten in sorted order, which for the fixed-width
`work-backup-YYYY-MM-DD.*` names is date order) are all `.skipped`
markers.  In particular 9 trailing skip-markers never force (the tenth-most
recent is then a `.bundle`) and 10 always do. -/
theorem c3_forced_after_ten_skips (unbundled dirOk : Bool) (names : List PathStr) :
    forcedBundle unbundled dirOk names = true ↔
      unbundled = false ∧ dirOk = true ∧
      MAX_CONSECUTIVE_SKIPPED ≤ (matchingArtifacts names).length ∧
      ∀ n ∈ (matchingArtifacts names).drop
          ((matchingArtifacts names).length - MAX_CONSECUTIVE_SKIPPED),
        endsSkipped n = true := by
  unfold forcedBundle shouldForceBundle
  cases unbundled with
  | true => simp
  | false =>
    cases dirOk with
    | false => simp
    | true =>
      simp only [Bool.not_false, Bool.not_true, Bool.true_and, if_false,
        Bool.false_eq_true]
      have hlen : ((matchingArtifacts names).drop
          ((matchingArtifacts names).length - MAX_CONSECUTIVE_SKIPPED)).length =
          (matchingArtifacts names).length -
            ((matchingArtifacts names).length - MAX_CONSECUTIVE_SKIPPED) :=
        List.length_drop _ _
      by_cases h : ((matchingArtifacts names).drop
          ((matchingArtifacts names).length - MAX_CONSECUTIVE_SKIPPED)).length <
          MAX_CONSECUTIVE_SKIPPED
      · rw [if_pos h]
        have h2 : ¬ MAX_CONSECUTIVE_SKIPPED ≤ (matchingArtifacts names).length := by
          unfold MAX_CONSECUTIVE_SKIPPED at *
          omega
        simp [h2]
      · rw [if_neg h]
        have h2 : MAX_CONSECUTIVE_SKIPPED ≤ (matchingArtifacts names).length := by
          unfold MAX_CONSECUTIVE_SKIPPED at *
          omega
        simp only [h2, true_and]
        exact List.all_eq_true

theorem contains_dot_of_mem {a : Char} {l : List Char} (h : a ∈ l) :
    l.contains a = true :=
  List.elem_eq_true_of_mem h

theorem globMatch_of_reMatch {n : PathStr} (h : (bundleReMatch n).isSome = true) :
    globMatch n = true := by
  unfold bundleReMatch at h
  by_cases hp : ("work-backup-".data).isPrefixOf n = true
  · unfold globMatch
    rw [hp, Bool.true_and]
    rw [if_pos hp] at h
    by_cases hd : dateGroupOk ((n.drop 12).take 10) = true
    · rw [if_pos hd] at h
      have hdot : '.' ∈ (n.drop 12).drop 10 := by
        by_cases he : (n.drop 12).drop 10 = ".bundle".data
        · rw [he]
          decide
        · rw [if_neg he] at h
          by_cases he2 : (n.drop 12).drop 10 = ".skipped".data
          · rw [he2]
            decide
          · rw [if_neg he2] at h
            simp at h
      exact contains_dot_of_mem (List.mem_of_mem_drop hdot)
    · rw [if_neg hd] at h
      simp at h
  · rw [if_neg hp] at h
    simp at h

theorem mem_matchingArtifacts {names : List PathStr} {n : PathStr} :
    n ∈ matchingArtifacts names ↔
      n ∈ names ∧ globMatch n = true ∧ (bundleReMatch n).isSome = true := by
  unfold matchingArtifacts sortNames
  rw [List.mem_filter, (List.perm_insertionSort _ _).mem_iff, List.mem_filter]
  constructor
  · exact fun h => ⟨h.1.1, h.1.2, h.2⟩
  · exact fun h => ⟨⟨h.1, h.2.1⟩, h.2.2⟩

/-- The date oracle of the C2 counterexample. -/
def c2dates : PathStr → PyDate := fun ds =>
  if ds = "2020-01-01".data then ⟨0, 2020, 1, 2020, 1⟩ else ⟨400, 2021, 2, 2021, 5⟩

/-- Counterexample to C2: `BUNDLE_RE` matches `.skipped` names, so
`retention_cleanup` tiers skip-markers like real artifacts; here an expired
(age 400 days) skip-marker is in the delete list of the retention pass. -/
theorem c2_counterexample_skip_marker_deleted :
    endsSkipped "work-backup-2020-01-01.skipped".data = true ∧
    (bundleReMatch "work-backup-2020-01-01.skipped".data).isSome = true ∧
    "work-backup-2020-01-01.skipped".data ∈
      retentionDeleteNames ⟨400, 2021, 2, 2021, 5⟩ c2dates
        ["work-backup-2020-01-01.skipped".data,
         "work-backup-2021-02-05.bundle".data] := by
  refine ⟨by decide, by decide, ?_⟩
  decide

/-- C2 amended: `retention_cleanup` does not exempt skip-markers; every
pattern-matching name in the directory — `.skipped` markers included,
since `BUNDLE_RE` accepts the `skipped` extension — is classified by the
retention pass and ends up either retained or deleted.  Only names not
matching the pattern are outside retention. -/
theorem c2_amended_skip_markers_tiered (today : PyDate) (dates : PathStr → PyDate)
    (names : List PathStr) (n : PathStr) (hmem : n ∈ names)
    (hre : (bundleReMatch n).isSome = true) :
    n ∈ matchingArtifacts names ∧
      (n ∈ retentionKeepNames today dates names ∨
        n ∈ retentionDeleteNames today dates names) := by
  have hglob := globMatch_of_reMatch hre
  have hart : n ∈ matchingArtifacts names := mem_matchingArtifacts.2 ⟨hmem, hglob, hre⟩
  refine ⟨hart, ?_⟩
  have hb : (n, dates (((bundleReMatch n).map Prod.fst).getD [])) ∈
      retentionBundles dates names :=
    List.mem_map_of_mem _ hart
  by_cases hk : n ∈ keepSet today (retentionBundles dates names)
  · exact Or.inl hk
  · exact Or.inr ((mem_toDelete_iff _ _ hb).2 hk)

/-- Witness for the amended C2 at the concrete two-artifact directory. -/
theorem c2_amended_skip_markers_tiered_witness :
    ("work-backup-2020-01-01.skipped".data ∈
        (["work-backup-2020-01-01.skipped".data,
          "work-backup-2021-02-05.bundle".data] : List PathStr)) ∧
    (bundleReMatch "work-backup-2020-01-01.skipped".data).isSome = true ∧
    ("work-backup-2020-01-01.skipped".data ∈
        matchingArtifacts
          ["work-backup-2020-01-01.skipped".data,
           "work-backup-2021-02-05.bundle".data] ∧
      ("work-backup-2020-01-01.skipped".data ∈
          retentionKeepNames ⟨400, 2021, 2, 2021, 5⟩ c2dates
            ["work-backup-2020-01-01.skipped".data,
             "work-backup-2021-02-05.bundle".data] ∨
        "work-backup-2020-01-01.skipped".data ∈
          retentionDeleteNames ⟨400, 2021, 2, 2021, 5⟩ c2dates
            ["work-backup-2020-01-01.skipped".data,
             "work-backup-2021-02-05.bundle".data])) :=
  ⟨by decide, by decide,
    c2_amended_skip_markers_tiered ⟨400, 2021, 2, 2021, 5⟩ c2dates
      ["work-backup-2020-01-01.skipped".data,
       "work-backup-2021-02-05.bundle".data]
      "work-backup-2020-01-01.skipped".data (by decide) (by decide)⟩

/-- Witness for C3: with the head unchanged and ten consecutive `.skipped`
markers in the bundle directory, a bundle is forced. -/
theorem c3_forced_after_ten_skips_witness :
    forcedBundle false true
      ["work-backup-2024-01-01.skipped".data, "work-backup-2024-01-02.skipped".data,
       "work-backup-2024-01-03.skipped".data, "work-backup-2024-01-04.skipped".data,
       "work-backup-2024-01-05.skipped".data, "work-backup-2024-01-06.skipped".data,
       "work-backup-2024-01-07.skipped".data, "work-backup-2024-01-08.skipped".data,
       "work-backup-2024-01-09.skipped".data, "work-backup-2024-01-10.skipped".data]
      = true :=
  (c3_forced_after_ten_skips false true
      ["work-backup-2024-01-01.skipped".data, "work-backup-2024-01-02.skipped".data,
       "work-backup-2024-01-03.skipped".data, "work-backup-2024-01-04.skipped".data,
       "work-backup-2024-01-05.skipped".data, "work-backup-2024-01-06.skipped".data,
       "work-backup-2024-01-07.skipped".data, "work-backup-2024-01-08.skipped".data,
       "work-backup-2024-01-09.skipped".data, "work-backup-2024-01-10.skipped".data]).2
    ⟨rfl, rfl, by decide, by decide⟩

/-! ## The whole-mirror artifact produced by a run -/

/-- `f"work-backup-{now}.bundle"`: the dated name `create_bundle`
(line 355) uses for a real whole-mirror artifact. -/
def bundleFileName (dateStr : PathStr) : PathStr :=
  "work-backup-".data ++ dateStr ++ ".bundle".data

/-- `f"work-backup-{now}.skipped"`: the dated name `create_skipped_marker`
(line 411) uses for a skip-marker. -/
def skippedFileName (dateStr : PathStr) : PathStr :=
  "work-backup-".data ++ dateStr ++ ".skipped".data

/-- One run's effect on the artifact directory (`main`, lines 602-631):
exactly one artifact is written for the current date — `create_bundle`
copies `work-backup-<date>.bundle` into the bundle directory when a bundle
is due, otherwise `create_skipped_marker` writes
`work-backup-<date>.skipped`.  Writing a name that already exists
overwrites the file, which on the name set is `insert`. -/
def runArtifact (dateStr : PathStr) (produceBundle : Bool)
    (dir : Finset PathStr) : Finset PathStr :=
  if produceBundle then insert (bundleFileName dateStr) dir
  else insert (skippedFileName dateStr) dir

theorem isPrefixOf_exists {l₁ : PathStr} : ∀ {l₂ : PathStr},
    l₁.isPrefixOf l₂ = true → ∃ t, l₂ = l₁ ++ t := by
  induction l₁ with
  | nil => intro l₂ _; exact ⟨l₂, rfl⟩
  | cons a as ih =>
    intro l₂ h
    cases l₂ with
    | nil => simp [List.isPrefixOf] at h
    | cons b bs =>
      simp only [List.isPrefixOf, Bool.and_eq_true, beq_iff_eq] at h
      obtain ⟨t, ht⟩ := ih h.2
      refine ⟨t, ?_⟩
      rw [List.cons_append, ← ht, h.1]

/-- A name accepted by `BUNDLE_RE` is exactly the dated bundle or marker
name it parses to: the match determines the name. -/
theorem bundleReMatch_reconstruct {n ds : PathStr} {b : Bool}
    (h : bundleReMatch n = some (ds, b)) :
    n = if b then bundleFileName ds else skippedFileName ds := by
  unfold bundleReMatch at h
  by_cases hp : ("work-backup-".data).isPrefixOf n = true
  · rw [if_pos hp] at h
    obtain ⟨t, ht⟩ := isPrefixOf_exists hp
    have hdrop : n.drop 12 = t := by
      rw [ht]
      have h12 : (12 : Nat) = ("work-backup-".data).length := by decide
      rw [h12, List.drop_left]
    rw [hdrop] at h
    by_cases hd : dateGroupOk (t.take 10) = true
    · rw [if_pos hd] at h
      by_cases he : t.drop 10 = ".bundle".data
      · rw [if_pos he] at h
        injection h with h
        injection h with hds hb
        rw [← hb, if_pos rfl]
        unfold bundleFileName
        rw [ht, ← hds, ← he, List.append_assoc, List.take_append_drop]
      · rw [if_neg he] at h
        by_cases he2 : t.drop 10 = ".skipped".data
        · rw [if_pos he2] at h
          injection h with h
          injection h with hds hb
          rw [← hb]
          simp only [Bool.false_eq_true, if_false]
          unfold skippedFileName
          rw [ht, ← hds, ← he2, List.append_assoc, List.take_append_drop]
        · rw [if_neg he2] at h
          exact absurd h (by simp)
    · rw [if_neg hd] at h
      exact absurd h (by simp)
  · rw [if_neg hp] at h
    exact absurd h (by simp)

/-- Counterexample to C10: a run that skipped (marker written) followed by
a second run on the same calendar date that produced a real bundle leaves
two distinct pattern-matching artifacts carrying that same date. -/
theorem c10_counterexample_two_artifacts_same_date :
    bundleFileName "2024-01-01".data ∈
      runArtifact "2024-01-01".data true
        (runArtifact "2024-01-01".data false ∅) ∧
    skippedFileName "2024-01-01".data ∈
      runArtifact "2024-01-01".data true
        (runArtifact "2024-01-01".data false ∅) ∧
    bundleFileName "2024-01-01".data ≠ skippedFileName "2024-01-01".data ∧
    (bundleReMatch (bundleFileName "2024-01-01".data)).map Prod.fst =
      some "2024-01-01".data ∧
    (bundleReMatch (skippedFileName "2024-01-01".data)).map Prod.fst =
      some "2024-01-01".data :=
  ⟨by decide, by decide, by decide, by decide, by decide⟩

/-- C10 amended: each run produces exactly one artifact, deterministically
named by the date and the outcome kind; a second run on the same date with
the same outcome overwrites rather than duplicates (the directory state is
unchanged), and a matching name is determined by its (date, kind) pair, so
every directory state holds at most one artifact per (calendar date,
status).  At most one per date alone fails: a marker and a real bundle may
coexist for one date (see the counterexample). -/
theorem c10_amended_one_artifact_per_date_and_kind :
    (∀ (dateStr : PathStr) (produceBundle : Bool) (dir : Finset PathStr),
      runArtifact dateStr produceBundle (runArtifact dateStr produceBundle dir) =
        runArtifact dateStr produceBundle dir) ∧
    (∀ (n₁ n₂ : PathStr) (k : PathStr × Bool),
      bundleReMatch n₁ = some k → bundleReMatch n₂ = some k → n₁ = n₂) := by
  constructor
  · intro dateStr produceBundle dir
    cases produceBundle <;> simp [runArtifact]
  · intro n₁ n₂ k h1 h2
    obtain ⟨ds, b⟩ := k
    rw [bundleReMatch_reconstruct h1, bundleReMatch_reconstruct h2]

/-- Witness for the amended C10: same-kind reruns overwrite, and the
bundle name for a concrete date is the unique name parsing to that
(date, kind). -/
theorem c10_amended_one_artifact_per_date_and_kind_witness :
    runArtifact "2024-01-01".data true (runArtifact "2024-01-01".data true ∅) =
      runArtifact "2024-01-01".data true ∅ ∧
    bundleFileName "2024-01-01".data = bundleFileName "2024-01-01".data :=
  ⟨c10_amended_one_artifact_per_date_and_kind.1 "2024-01-01".data true ∅,
   c10_amended_one_artifact_per_date_and_kind.2
     (bundleFileName "2024-01-01".data) (bundleFileName "2024-01-01".data)
     ("2024-01-01".data, true) (by decide) (by decide)⟩

/-! ## The mirror tree and reconciliation -/

/-- `path.rstrip("/")`. -/
def rstripSlash (p : PathStr) : PathStr :=
  (p.reverse.dropWhile (fun c => c = '/')).reverse

/-- `_is_ancestor(path, expected)` (lines 274-277): some expected path
starts with `path.rstrip("/") + "/"`. -/
def isAncestor (path : PathStr) (expected : List PathStr) : Bool :=
  expected.any (fun e => (rstripSlash path ++ ['/']).isPrefixOf e)

/-- `_is_covered(path, expected)` (lines 280-290): an exact member, an
ancestor of a member, or inside a member
(`path.startswith(e.rstrip("/") + "/")`). -/
def isCovered (path : PathStr) (expected : List PathStr) : Bool :=
  decide (path ∈ expected) || isAncestor path expected ||
    expected.any (fun e => (rstripSlash e ++ ['/']).isPrefixOf path)

/-- A node of the mirror tree: a regular file, a symbolic link (never
traversed as a directory: `os.path.islink`, and `os.remove`d directly), or
a real directory with named children. -/
inductive FSNode where
  | file : FSNode
  | symlink : FSNode
  | dir : List (PathStr × FSNode) → FSNode

/-- `_cleanup_dir(dir_path, expected, dry_run, removed)` (lines 293-313),
acting on the children of one directory: a child that is not covered is
deleted; a covered child that is a real directory and an ancestor of an
expected path is recursed into; every other covered child is left
untouched (`full = os.path.join(dir_path, name)`). -/
def cleanupChildren (expected : List PathStr) :
    PathStr → List (PathStr × FSNode) → List (PathStr × FSNode)
  | _, [] => []
  | dirPath, (name, node) :: rest =>
    let full := dirPath ++ '/' :: name
    if isCovered full expected then
      (name,
        match node with
        | FSNode.dir cs =>
          if isAncestor full expected then
            FSNode.dir (cleanupChildren expected full cs)
          else FSNode.dir cs
        | other => other) :: cleanupChildren expected dirPath rest
    else
      cleanupChildren expected dirPath rest

/-- The `removed` list recorded by the same traversal: one entry per
deleted child (lines 303-313; it is appended in dry-run mode as well, so
the list does not depend on `dry_run`). -/
def removedChildren (expected : List PathStr) :
    PathStr → List (PathStr × FSNode) → List PathStr
  | _, [] => []
  | dirPath, (name, node) :: rest =>
    let full := dirPath ++ '/' :: name
    if isCovered full expected then
      (match node with
        | FSNode.dir cs =>
          if isAncestor full expected then removedChildren expected full cs
          else []
        | _ => []) ++ removedChildren expected dirPath rest
    else
      full :: removedChildren expected dirPath rest

/-- All paths present in a directory's subtree. -/
def treePaths : PathStr → List (PathStr × FSNode) → List PathStr
  | _, [] => []
  | dirPath, (name, node) :: rest =>
    let full := dirPath ++ '/' :: name
    full :: ((match node with
      | FSNode.dir cs => treePaths full cs
      | _ => []) ++ treePaths dirPath rest)

/-! ## Prefix helpers -/

theorem mem_takeWhile_pred {q : Char → Bool} :
    ∀ {l : List Char} {b : Char}, b ∈ l.takeWhile q → q b = true := by
  intro l
  induction l with
  | nil =>
    intro b hb
    simp [List.takeWhile] at hb
  | cons a t ih =>
    intro b hb
    by_cases hq : q a = true
    · rw [List.takeWhile_cons_of_pos hq] at hb
      rcases List.mem_cons.1 hb with h1 | h1
      · rw [h1]
        exact hq
      · exact ih h1
    · rw [List.takeWhile_cons_of_neg (by simpa using hq)] at hb
      simp at hb

theorem isPrefixOf_append (l t : PathStr) : l.isPrefixOf (l ++ t) = true := by
  induction l with
  | nil => simp [List.isPrefixOf]
  | cons a as ih => simp [List.isPrefixOf, ih]

theorem isPrefixOf_extend {l p : PathStr} (h : l.isPrefixOf p = true)
    (q : PathStr) : l.isPrefixOf (p ++ q) = true := by
  obtain ⟨t, rfl⟩ := isPrefixOf_exists h
  rw [List.append_assoc]
  exact isPrefixOf_append _ _

theorem rstripSlash_decomp (p : PathStr) :
    ∃ k, p = rstripSlash p ++ List.replicate k '/' := by
  refine ⟨(p.reverse.takeWhile (fun c => decide (c = '/'))).length, ?_⟩
  have hrepl : p.reverse.takeWhile (fun c => decide (c = '/')) =
      List.replicate (p.reverse.takeWhile (fun c => decide (c = '/'))).length '/' := by
    apply List.eq_replicate_length.2
    intro b hb
    exact of_decide_eq_true (mem_takeWhile_pred hb)
  calc p = p.reverse.reverse := (List.reverse_reverse p).symm
    _ = (p.reverse.takeWhile (fun c => decide (c = '/')) ++
          p.reverse.dropWhile (fun c => decide (c = '/'))).reverse := by
        rw [List.takeWhile_append_dropWhile]
    _ = (p.reverse.dropWhile (fun c => decide (c = '/'))).reverse ++
          (p.reverse.takeWhile (fun c => decide (c = '/'))).reverse := by
        rw [List.reverse_append]
    _ = rstripSlash p ++
          (List.replicate (p.reverse.takeWhile (fun c => decide (c = '/'))).length
            '/').reverse := by
        rw [← hrepl]
        rfl
    _ = rstripSlash p ++
          List.replicate (p.reverse.takeWhile (fun c => decide (c = '/'))).length
            '/' := by
        rw [List.reverse_replicate]

theorem rstripSlash_prefixOf_child (e n : PathStr) :
    (rstripSlash e ++ ['/']).isPrefixOf (e ++ '/' :: n) = true := by
  obtain ⟨k, hk⟩ := rstripSlash_decomp e
  cases k with
  | zero =>
    have he : e ++ '/' :: n = (rstripSlash e ++ ['/']) ++ n := by
      conv_lhs => rw [hk]
      simp
    rw [he]
    exact isPrefixOf_append _ _
  | succ j =>
    have he : e ++ '/' :: n =
        (rstripSlash e ++ ['/']) ++ (List.replicate j '/' ++ '/' :: n) := by
      conv_lhs => rw [hk]
      rw [List.replicate_succ]
      simp
    rw [he]
    exact isPrefixOf_append _ _

/-- A child of a covered path that is not an ancestor of any expected path
is itself covered (by the descendant clause of `_is_covered`). -/
theorem covered_child {expected : List PathStr} {full : PathStr}
    (h : isCovered full expected = true) (hna : isAncestor full expected = false)
    (n : PathStr) : isCovered (full ++ '/' :: n) expected = true := by
  unfold isCovered at h ⊢
  rw [Bool.or_eq_true, Bool.or_eq_true] at h
  rw [Bool.or_eq_true, Bool.or_eq_true]
  rcases h with (h | h) | h
  · right
    rw [List.any_eq_true]
    exact ⟨full, of_decide_eq_true h, rstripSlash_prefixOf_child full n⟩
  · rw [hna] at h
    cases h
  · right
    rw [List.any_eq_true] at h ⊢
    obtain ⟨e, he, hpre⟩ := h
    exact ⟨e, he, isPrefixOf_extend hpre ('/' :: n)⟩

theorem treePaths_shape :
    ∀ (dirPath : PathStr) (cs : List (PathStr × FSNode)) (p : PathStr),
      p ∈ treePaths dirPath cs → ∃ t, p = dirPath ++ '/' :: t := by
  intro dirPath cs
  induction dirPath, cs using treePaths.induct with
  | case1 d =>
    intro p hp
    simp [treePaths] at hp
  | case2 d name node rest full ihnode ihrest =>
    intro p hp
    cases node with
    | file =>
      simp only [treePaths, List.mem_cons, List.nil_append] at hp
      rcases hp with hp | hp
      · exact ⟨name, hp⟩
      · exact ihrest p hp
    | symlink =>
      simp only [treePaths, List.mem_cons, List.nil_append] at hp
      rcases hp with hp | hp
      · exact ⟨name, hp⟩
      · exact ihrest p hp
    | dir cs =>
      simp only [treePaths, List.mem_cons, List.mem_append] at hp
      rcases hp with hp | hp | hp
      · exact ⟨name, hp⟩
      · obtain ⟨t, ht⟩ := ihnode p hp
        refine ⟨name ++ '/' :: t, ?_⟩
        rw [ht, List.append_assoc]
        rfl
      · exact ihrest p hp

theorem removed_not_covered (expected : List PathStr) :
    ∀ (dirPath : PathStr) (cs : List (PathStr × FSNode)) (p : PathStr),
      p ∈ removedChildren expected dirPath cs → isCovered p expected = false := by
  intro dirPath cs
  induction dirPath, cs using removedChildren.induct expected with
  | case1 d =>
    intro p hp
    simp [removedChildren] at hp
  | case2 d name node rest full hcond ihnode ihrest =>
    intro p hp
    cases node with
    | file =>
      simp only [removedChildren] at hp
      rw [if_pos hcond, List.nil_append] at hp
      exact ihrest p hp
    | symlink =>
      simp only [removedChildren] at hp
      rw [if_pos hcond, List.nil_append] at hp
      exact ihrest p hp
    | dir cs =>
      simp only [removedChildren] at hp
      rw [if_pos hcond] at hp
      by_cases hanc : isAncestor (d ++ '/' :: name) expected = true
      · rw [if_pos hanc] at hp
        rcases List.mem_append.1 hp with hp | hp
        · exact ihnode p hp
        · exact ihrest p hp
      · rw [if_neg hanc, List.nil_append] at hp
        exact ihrest p hp
  | case3 d name node rest full hcond ihrest =>
    intro p hp
    have hred : removedChildren expected d ((name, node) :: rest) =
        (d ++ '/' :: name) :: removedChildren expected d rest := by
      cases node <;> simp only [removedChildren] <;> rw [if_neg hcond]
    rw [hred] at hp
    rcases List.mem_cons.1 hp with hp | hp
    · rw [hp]
      exact Bool.eq_false_iff.2 hcond
    · exact ihrest p hp

theorem cleanup_covered (expected : List PathStr) :
    ∀ (dirPath : PathStr) (cs : List (PathStr × FSNode)) (p : PathStr),
      p ∈ treePaths dirPath (cleanupChildren expected dirPath cs) →
      isCovered p expected = true := by
  intro dirPath cs
  induction dirPath, cs using cleanupChildren.induct expected with
  | case1 d =>
    intro p hp
    simp [cleanupChildren, treePaths] at hp
  | case2 d name node rest full hcond ihnode ihrest =>
    intro p hp
    cases node with
    | file =>
      simp only [cleanupChildren] at hp
      rw [if_pos hcond] at hp
      simp only [treePaths, List.mem_cons, List.nil_append] at hp
      rcases hp with hp | hp
      · rw [hp]
        exact hcond
      · exact ihrest p hp
    | symlink =>
      simp only [cleanupChildren] at hp
      rw [if_pos hcond] at hp
      simp only [treePaths, List.mem_cons, List.nil_append] at hp
      rcases hp with hp | hp
      · rw [hp]
        exact hcond
      · exact ihrest p hp
    | dir cs =>
      simp only [cleanupChildren] at hp
      rw [if_pos hcond] at hp
      by_cases hanc : isAncestor (d ++ '/' :: name) expected = true
      · rw [if_pos hanc] at hp
        simp only [treePaths, List.mem_cons, List.mem_append] at hp
        rcases hp with hp | hp | hp
        · rw [hp]
          exact hcond
        · exact ihnode p hp
        · exact ihrest p hp
      · rw [if_neg hanc] at hp
        simp only [treePaths, List.mem_cons, List.mem_append] at hp
        rcases hp with hp | hp | hp
        · rw [hp]
          exact hcond
        · obtain ⟨t, ht⟩ := treePaths_shape _ _ p hp
          rw [ht]
          exact covered_child hcond (Bool.eq_false_iff.2 hanc) t
        · exact ihrest p hp
  | case3 d name node rest full hcond ihrest =>
    intro p hp
    have hred : cleanupChildren expected d ((name, node) :: rest) =
        cleanupChildren expected d rest := by
      cases node <;> simp only [cleanupChildren] <;> rw [if_neg hcond]
    rw [hred] at hp
    exact ihrest p hp

theorem removed_after_cleanup (expected : List PathStr) :
    ∀ (dirPath : PathStr) (cs : List (PathStr × FSNode)),
      removedChildren expected dirPath (cleanupChildren expected dirPath cs) = [] := by
  intro dirPath cs
  induction dirPath, cs using cleanupChildren.induct expected with
  | case1 d => simp [cleanupChildren, removedChildren]
  | case2 d name node rest full hcond ihnode ihrest =>
    cases node with
    | file =>
      simp only [cleanupChildren]
      rw [if_pos hcond]
      simp only [removedChildren]
      rw [if_pos hcond, ihrest, List.nil_append]
    | symlink =>
      simp only [cleanupChildren]
      rw [if_pos hcond]
      simp only [removedChildren]
      rw [if_pos hcond, ihrest, List.nil_append]
    | dir cs =>
      simp only [cleanupChildren]
      rw [if_pos hcond]
      by_cases hanc : isAncestor (d ++ '/' :: name) expected = true
      · rw [if_pos hanc]
        simp only [removedChildren]
        rw [if_pos hcond, if_pos hanc, ihnode, ihrest, List.nil_append]
      · rw [if_neg hanc]
        simp only [removedChildren]
        rw [if_pos hcond, if_neg hanc, ihrest, List.nil_append]
  | case3 d name node rest full hcond ihrest =>
    have hred : cleanupChildren expected d ((name, node) :: rest) =
        cleanupChildren expected d rest := by
      cases node <;> simp only [cleanupChildren] <;> rw [if_neg hcond]
    rw [hred]
    exact ihrest

theorem cleanup_idempotent (expected : List PathStr) :
    ∀ (dirPath : PathStr) (cs : List (PathStr × FSNode)),
      cleanupChildren expected dirPath (cleanupChildren expected dirPath cs) =
        cleanupChildren expected dirPath cs := by
  intro dirPath cs
  induction dirPath, cs using cleanupChildren.induct expected with
  | case1 d => simp [cleanupChildren]
  | case2 d name node rest full hcond ihnode ihrest =>
    cases node with
    | file =>
      have hred : cleanupChildren expected d ((name, FSNode.file) :: rest) =
          (name, FSNode.file) :: cleanupChildren expected d rest := by
        simp only [cleanupChildren]
        rw [if_pos hcond]
      have hred2 : cleanupChildren expected d
          ((name, FSNode.file) :: cleanupChildren expected d rest) =
          (name, FSNode.file) ::
            cleanupChildren expected d (cleanupChildren expected d rest) := by
        simp only [cleanupChildren]
        rw [if_pos hcond]
      rw [hred, hred2, ihrest]
    | symlink =>
      have hred : cleanupChildren expected d ((name, FSNode.symlink) :: rest) =
          (name, FSNode.symlink) :: cleanupChildren expected d rest := by
        simp only [cleanupChildren]
        rw [if_pos hcond]
      have hred2 : cleanupChildren expected d
          ((name, FSNode.symlink) :: cleanupChildren expected d rest) =
          (name, FSNode.symlink) ::
            cleanupChildren expected d (cleanupChildren expected d rest) := by
        simp only [cleanupChildren]
        rw [if_pos hcond]
      rw [hred, hred2, ihrest]
    | dir cs =>
      have ihnode' : cleanupChildren expected (d ++ '/' :: name)
          (cleanupChildren expected (d ++ '/' :: name) cs) =
          cleanupChildren expected (d ++ '/' :: name) cs := ihnode
      by_cases hanc : isAncestor (d ++ '/' :: name) expected = true
      · have hred : cleanupChildren expected d ((name, FSNode.dir cs) :: rest) =
            (name, FSNode.dir (cleanupChildren expected (d ++ '/' :: name) cs)) ::
              cleanupChildren expected d rest := by
          simp only [cleanupChildren]
          rw [if_pos hcond, if_pos hanc]
        have hred2 : cleanupChildren expected d
            ((name, FSNode.dir (cleanupChildren expected (d ++ '/' :: name) cs)) ::
              cleanupChildren expected d rest) =
            (name, FSNode.dir (cleanupChildren expected (d ++ '/' :: name)
                (cleanupChildren expected (d ++ '/' :: name) cs))) ::
              cleanupChildren expected d (cleanupChildren expected d rest) := by
          simp only [cleanupChildren]
          rw [if_pos hcond, if_pos hanc]
        rw [hred, hred2, ihnode', ihrest]
      · have hred : cleanupChildren expected d ((name, FSNode.dir cs) :: rest) =
            (name, FSNode.dir cs) :: cleanupChildren expected d rest := by
          simp only [cleanupChildren]
          rw [if_pos hcond, if_neg hanc]
        have hred2 : cleanupChildren expected d
            ((name, FSNode.dir cs) :: cleanupChildren expected d rest) =
            (name, FSNode.dir cs) ::
              cleanupChildren expected d (cleanupChildren expected d rest) := by
          simp only [cleanupChildren]
          rw [if_pos hcond, if_neg hanc]
        rw [hred, hred2, ihrest]
  | case3 d name node rest full hcond ihrest =>
    have hred : cleanupChildren expected d ((name, node) :: rest) =
        cleanupChildren expected d rest := by
      cases node <;> simp only [cleanupChildren] <;> rw [if_neg hcond]
    rw [hred]
    exact ihrest

/-! ## Configuration entries and the cleanup pass -/

/-- A validated configuration entry: its source `path` (after
`os.path.expanduser`) and whether its `type` is `"git-repo"`. -/
structure SrcEntry where
  path : PathStr
  isGitRepo : Bool
deriving DecidableEq

/-- `dest_path(src_path, backup_repo)` (lines 120-127):
`os.path.join(backup_repo, "__root__", src_path.lstrip("/"))`; the repo
path is absolute without a trailing slash (`os.path.abspath` in `main`). -/
def dest_path (srcPath backupRepo : PathStr) : PathStr :=
  backupRepo ++ '/' :: "__root__".data ++ '/' ::
    srcPath.dropWhile (fun c => c = '/')

/-- The expected destination of one entry (lines 263-266): `dest_path`,
with `".bundle"` appended for git-repo entries. -/
def entryDest (backupRepo : PathStr) (e : SrcEntry) : PathStr :=
  dest_path e.path backupRepo ++ (if e.isGitRepo then ".bundle".data else [])

/-- The `expected` set built by `cleanup_removed_entries` (lines 261-267). -/
def cleanupExpected (backupRepo : PathStr) (entries : List SrcEntry) :
    List PathStr :=
  entries.map (entryDest backupRepo)

/-- `root_dir = os.path.join(backup_repo, "__root__")` (line 257). -/
def rootDirOf (backupRepo : PathStr) : PathStr :=
  backupRepo ++ '/' :: "__root__".data

/-- `cleanup_removed_entries(entries, backup_repo, dry_run)`
(lines 255-271), for a present `__root__` directory with children
`rootChildren` (when `__root__` is absent the function returns `[]` and
touches nothing): the cleaned tree and the removed list. -/
def cleanup_removed_entries (backupRepo : PathStr) (entries : List SrcEntry)
    (rootChildren : List (PathStr × FSNode)) :
    List (PathStr × FSNode) × List PathStr :=
  (cleanupChildren (cleanupExpected backupRepo entries) (rootDirOf backupRepo)
      rootChildren,
   removedChildren (cleanupExpected backupRepo entries) (rootDirOf backupRepo)
      rootChildren)

/-- The cleanup call of `main` (lines 574-587): entries that failed their
pre-sync command are excluded from syncing (`active_entries`), and sync
failures are collected, but line 587 passes the FULL `entries` list to
`cleanup_removed_entries`, so failed entries still contribute their
destination to the expected set used for pruning. -/
def mainCleanup (backupRepo : PathStr) (entries : List SrcEntry)
    (preSyncFailed _syncFailed : List PathStr)
    (rootChildren : List (PathStr × FSNode)) :
    List (PathStr × FSNode) × List PathStr :=
  let _activeEntries := entries.filter (fun e => decide (e.path ∉ preSyncFailed))
  cleanup_removed_entries backupRepo entries rootChildren

/-- Counterexample to C4: with one configured entry mirrored at
`/b/__root__/a`, the file `x` inside that covered destination survives
reconciliation (the reconciler never recurses into a covered destination,
whose contents rsync owns), yet `/b/__root__/a/x` is neither the mapped
destination of any entry nor an ancestor of one. -/
theorem c4_counterexample_inner_file_survives :
    "/b/__root__/a/x".data ∈
      treePaths (rootDirOf "/b".data)
        ((cleanup_removed_entries "/b".data [⟨"/a".data, false⟩]
          [("a".data, FSNode.dir [("x".data, FSNode.file)])]).1) ∧
    "/b/__root__/a/x".data ∉ cleanupExpected "/b".data [⟨"/a".data, false⟩] ∧
    isAncestor "/b/__root__/a/x".data
      (cleanupExpected "/b".data [⟨"/a".data, false⟩]) = false := by
  refine ⟨?_, by decide, by decide⟩
  simp +decide [cleanup_removed_entries, cleanupChildren, treePaths,
    cleanupExpected, entryDest, dest_path, rootDirOf]

/-- C4 amended: after a (non-dry-run) reconciliation pass, every path
still present under the mirror root is a mapped destination of a
configured entry, an ancestor directory of one, or a descendant of one
(content inside a covered destination, owned by the copy tool); every
other path is absent. -/
theorem c4_amended_surviving_paths_covered (backupRepo : PathStr)
    (entries : List SrcEntry) (rootChildren : List (PathStr × FSNode)) :
    ∀ p ∈ treePaths (rootDirOf backupRepo)
        ((cleanup_removed_entries backupRepo entries rootChildren).1),
      p ∈ cleanupExpected backupRepo entries ∨
      isAncestor p (cleanupExpected backupRepo entries) = true ∨
      ∃ e ∈ entries,
        (rstripSlash (entryDest backupRepo e) ++ ['/']).isPrefixOf p = true := by
  intro p hp
  have hcov := cleanup_covered (cleanupExpected backupRepo entries) _ _ p hp
  unfold isCovered at hcov
  rw [Bool.or_eq_true, Bool.or_eq_true] at hcov
  rcases hcov with (h | h) | h
  · exact Or.inl (of_decide_eq_true h)
  · exact Or.inr (Or.inl h)
  · right
    right
    rw [List.any_eq_true] at h
    obtain ⟨e', he', hpre⟩ := h
    unfold cleanupExpected at he'
    rw [List.mem_map] at he'
    obtain ⟨e, he, hee⟩ := he'
    refine ⟨e, he, ?_⟩
    rw [hee]
    exact hpre

/-- Witness for the amended C4: the surviving inner file of the
counterexample tree is covered via the descendant disjunct. -/
theorem c4_amended_surviving_paths_covered_witness :
    ("/b/__root__/a/x".data ∈
      treePaths (rootDirOf "/b".data)
        ((cleanup_removed_entries "/b".data [⟨"/a".data, false⟩]
          [("a".data, FSNode.dir [("x".data, FSNode.file)])]).1)) ∧
    ("/b/__root__/a/x".data ∈ cleanupExpected "/b".data [⟨"/a".data, false⟩] ∨
      isAncestor "/b/__root__/a/x".data
        (cleanupExpected "/b".data [⟨"/a".data, false⟩]) = true ∨
      ∃ e ∈ [(⟨"/a".data, false⟩ : SrcEntry)],
        (rstripSlash (entryDest "/b".data e) ++ ['/']).isPrefixOf
          "/b/__root__/a/x".data = true) := by
  have hmem : "/b/__root__/a/x".data ∈
      treePaths (rootDirOf "/b".data)
        ((cleanup_removed_entries "/b".data [⟨"/a".data, false⟩]
          [("a".data, FSNode.dir [("x".data, FSNode.file)])]).1) := by
    simp +decide [cleanup_removed_entries, cleanupChildren, treePaths,
      cleanupExpected, entryDest, dest_path, rootDirOf]
  exact ⟨hmem,
    c4_amended_surviving_paths_covered "/b".data [⟨"/a".data, false⟩]
      [("a".data, FSNode.dir [("x".data, FSNode.file)])]
      "/b/__root__/a/x".data hmem⟩

/-- C9: reconciliation is idempotent — running the cleanup pass a second
time on the tree the first pass produced, with the same configuration,
deletes nothing, records an empty removed list, and leaves the tree
unchanged. -/
theorem c9_reconciliation_idempotent (backupRepo : PathStr)
    (entries : List SrcEntry) (rootChildren : List (PathStr × FSNode)) :
    (cleanup_removed_entries backupRepo entries
        ((cleanup_removed_entries backupRepo entries rootChildren).1)).2 = [] ∧
    (cleanup_removed_entries backupRepo entries
        ((cleanup_removed_entries backupRepo entries rootChildren).1)).1 =
      (cleanup_removed_entries backupRepo entries rootChildren).1 :=
  ⟨removed_after_cleanup _ _ _, cleanup_idempotent _ _ _⟩

/-- C7: an entry that failed pre-sync or failed to sync is still covered
during reconciliation: its mapped destination is in the expected set used
for pruning (line 587 passes the full entry list), and hence neither the
destination itself nor anything inside it ever appears in the removed
list, whatever the failure sets were. -/
theorem c7_failed_entries_still_covered (backupRepo : PathStr)
    (entries : List SrcEntry) (preSyncFailed syncFailed : List PathStr)
    (rootChildren : List (PathStr × FSNode)) :
    ∀ e ∈ entries,
      entryDest backupRepo e ∈ cleanupExpected backupRepo entries ∧
      ∀ p ∈ (mainCleanup backupRepo entries preSyncFailed syncFailed
          rootChildren).2,
        p ≠ entryDest backupRepo e ∧
        (rstripSlash (entryDest backupRepo e) ++ ['/']).isPrefixOf p = false := by
  intro e he
  have hdest : entryDest backupRepo e ∈ cleanupExpected backupRepo entries := by
    unfold cleanupExpected
    exact List.mem_map_of_mem _ he
  refine ⟨hdest, ?_⟩
  intro p hp
  have hrem : p ∈ removedChildren (cleanupExpected backupRepo entries)
      (rootDirOf backupRepo) rootChildren := hp
  have hnc := removed_not_covered _ _ _ p hrem
  unfold isCovered at hnc
  rw [Bool.or_eq_false_iff, Bool.or_eq_false_iff] at hnc
  obtain ⟨⟨h1, h2⟩, h3⟩ := hnc
  constructor
  · intro hpe
    have : p ∉ cleanupExpected backupRepo entries := of_decide_eq_false h1
    rw [hpe] at this
    exact this hdest
  · have := List.any_eq_false.1 h3 (entryDest backupRepo e) hdest
    exact Bool.eq_false_iff.2 this

/-- Witness for C7: the single entry failed its pre-sync step, yet its
destination stays in the expected set and the removed list (which deletes
the junk file `z`) touches neither the destination nor anything inside it. -/
theorem c7_failed_entries_still_covered_witness :
    ((⟨"/a".data, false⟩ : SrcEntry) ∈ [(⟨"/a".data, false⟩ : SrcEntry)]) ∧
    (entryDest "/b".data ⟨"/a".data, false⟩ ∈
        cleanupExpected "/b".data [⟨"/a".data, false⟩] ∧
      ∀ p ∈ (mainCleanup "/b".data [⟨"/a".data, false⟩] ["/a".data] []
          [("a".data, FSNode.file), ("z".data, FSNode.file)]).2,
        p ≠ entryDest "/b".data ⟨"/a".data, false⟩ ∧
        (rstripSlash (entryDest "/b".data ⟨"/a".data, false⟩) ++
          ['/']).isPrefixOf p = false) :=
  ⟨by decide,
    c7_failed_entries_still_covered "/b".data [⟨"/a".data, false⟩]
      ["/a".data] [] [("a".data, FSNode.file), ("z".data, FSNode.file)]
      ⟨"/a".data, false⟩ (by decide)⟩

/-! ## Per-source git capture (`_sync_git_repo`, lines 157-202)

The git collaborator calls (`git show-ref --head`, `git bundle
list-heads`, `git bundle create`, `git bundle verify`) are external
subprocesses; one call of `_sync_git_repo` observes their results, fixed
in a `GitEnv`.  The destination file `dst` is modelled by the
`Option Artifact` it holds. -/

/-- Python whitespace, for `str.strip()` and `str.split(None, 1)`
(the ASCII whitespace git output can contain). -/
def isPySpace (c : Char) : Bool :=
  decide (c = ' ') || decide (c = '\t') || decide (c = '\n') ||
    decide (c = '\r') || decide (c = '\x0b') || decide (c = '\x0c')

/-- `output.strip()`. -/
def pyStrip (s : PathStr) : PathStr :=
  ((s.dropWhile isPySpace).reverse.dropWhile isPySpace).reverse

/-- `line.split(None, 1)`, returning the two parts when there are two:
leading whitespace skipped, the first part is the maximal non-whitespace
run, the second is everything after the following whitespace run (absent
when empty). -/
def splitMax1 (line : PathStr) : Option (PathStr × PathStr) :=
  let l1 := line.dropWhile isPySpace
  if l1.isEmpty then none
  else
    let p0 := l1.takeWhile (fun c => !isPySpace c)
    let r := (l1.dropWhile (fun c => !isPySpace c)).dropWhile isPySpace
    if r.isEmpty then none else some (p0, r)

/-- `_parse_refs(output)` (lines 147-154): the set of `(sha, ref)` pairs of
the stripped output's lines (git separates lines with a newline). -/
def parseRefs (output : PathStr) : Finset (PathStr × PathStr) :=
  ((pyStrip output).splitOn '\n').foldl
    (fun refs line =>
      match splitMax1 line with
      | some pr => insert pr refs
      | none => refs) ∅

/-- An opaque capture artifact at the destination path; the engine never
inspects its binary format. -/
structure Artifact where
  id : Nat
deriving DecidableEq

/-- The collaborator results one call of `_sync_git_repo` observes. -/
structure GitEnv where
  srcIsDir : Bool
  hasGitDir : Bool
  showRefOk : Bool
  showRefOut : PathStr
  listHeadsOk : Bool
  listHeadsOut : PathStr
  createOk : Bool
  created : Artifact
  createFailState : Option Artifact
  verifyOk : Bool

/-- The skip condition of lines 170-180:
`repo_refs is not None and bundle_refs is not None and repo_refs == bundle_refs`,
where `repo_refs` is parsed from `git show-ref --head` when it succeeded
and `bundle_refs` from `git bundle list-heads dst` when `dst` exists and
the command succeeded. -/
def refsUnchanged (env : GitEnv) (prev : Option Artifact) : Bool :=
  let repoRefs : Option (Finset (PathStr × PathStr)) :=
    if env.showRefOk then some (parseRefs env.showRefOut) else none
  let bundleRefs : Option (Finset (PathStr × PathStr)) :=
    if prev.isSome then
      if env.listHeadsOk then some (parseRefs env.listHeadsOut) else none
    else none
  repoRefs.isSome && bundleRefs.isSome && decide (repoRefs = bundleRefs)

/-- `_sync_git_repo(entry, backup_repo, dry_run)` (lines 157-202), as a
function of the observed collaborator results and the previous artifact at
`dst`.  Returns `(failed, dst afterwards)`.  Note that `git bundle create
dst` writes over `dst` itself (line 190), and a failed verify removes
`dst` (line 198). -/
def syncGitRepo (env : GitEnv) (prev : Option Artifact) (dryRun : Bool) :
    Bool × Option Artifact :=
  if !env.srcIsDir then (true, prev)
  else if !env.hasGitDir then (true, prev)
  else if refsUnchanged env prev then (false, prev)
  else if dryRun then (false, prev)
  else if !env.createOk then (true, env.createFailState)
  else if !env.verifyOk then (true, none)
  else (false, some env.created)

/-- C6: when the live ref set and the last artifact's ref set are both
obtainable and equal as sets of (objectId, refName) pairs, no capture is
attempted: the artifact is unchanged and the entry reports success
(`return False`, line 182). -/
theorem c6_unchanged_refs_skip_capture (env : GitEnv) (prev : Option Artifact)
    (dryRun : Bool) (a : Artifact) (hprev : prev = some a)
    (hsrc : env.srcIsDir = true) (hgit : env.hasGitDir = true)
    (hshow : env.showRefOk = true) (hlist : env.listHeadsOk = true)
    (heq : parseRefs env.showRefOut = parseRefs env.listHeadsOut) :
    syncGitRepo env prev dryRun = (false, prev) := by
  have hru : refsUnchanged env prev = true := by
    unfold refsUnchanged
    rw [hprev, hshow, hlist]
    simp [heq]
  unfold syncGitRepo
  simp [hsrc, hgit, hru]

/-- The concrete collaborator results of the C6 witness: the two ref
listings are different strings but the same set of pairs. -/
def c6env : GitEnv :=
  ⟨true, true, true, "a1 HEAD\na1 refs/heads/main".data,
   true, "a1 refs/heads/main\na1 HEAD".data, true, ⟨1⟩, none, true⟩

/-- Witness for C6: equal ref sets (in a different listing order) skip the
capture and keep the previous artifact. -/
theorem c6_unchanged_refs_skip_capture_witness :
    (some (⟨0⟩ : Artifact) = some (⟨0⟩ : Artifact)) ∧
    parseRefs c6env.showRefOut = parseRefs c6env.listHeadsOut ∧
    syncGitRepo c6env (some ⟨0⟩) false = (false, some ⟨0⟩) :=
  ⟨rfl, by decide,
    c6_unchanged_refs_skip_capture c6env (some ⟨0⟩) false ⟨0⟩ rfl rfl rfl rfl rfl
      (by decide)⟩

/-- The concrete collaborator results of the C5 counterexample: the refs
differ, the capture succeeds, its verification fails. -/
def c5env : GitEnv :=
  ⟨true, true, true, "a2 HEAD".data, true, "a1 HEAD".data, true, ⟨7⟩, none, false⟩

/-- Counterexample to C5: a capture is produced over the previous
artifact's path and fails verification; the entry is reported failed and
the file is removed — so the previous artifact does NOT remain present:
the destination ends up empty, not holding the prior artifact. -/
theorem c5_counterexample_prev_artifact_destroyed :
    (syncGitRepo c5env (some ⟨3⟩) false).1 = true ∧
    (syncGitRepo c5env (some ⟨3⟩) false).2 = none ∧
    some (⟨3⟩ : Artifact) ≠ (none : Option Artifact) :=
  ⟨by decide, by decide, by decide⟩

/-- C5 amended: when a capture is produced but fails integrity
verification, the just-produced artifact is deleted and the entry is
reported failed; but since `git bundle create` writes the capture over the
previous artifact's path, the previous artifact does not survive either —
after the operation no artifact exists at the destination. -/
theorem c5_amended_verify_failure_leaves_nothing (env : GitEnv)
    (prev : Option Artifact)
    (hsrc : env.srcIsDir = true) (hgit : env.hasGitDir = true)
    (hch : refsUnchanged env prev = false)
    (hcreate : env.createOk = true) (hverify : env.verifyOk = false) :
    syncGitRepo env prev false = (true, none) := by
  unfold syncGitRepo
  simp [hsrc, hgit, hch, hcreate, hverify]

/-- Witness for the amended C5 at the concrete collaborator results. -/
theorem c5_amended_verify_failure_leaves_nothing_witness :
    refsUnchanged c5env (some ⟨3⟩) = false ∧
    c5env.createOk = true ∧ c5env.verifyOk = false ∧
    syncGitRepo c5env (some ⟨3⟩) false = (true, none) :=
  ⟨by decide, rfl, rfl,
    c5_amended_verify_failure_leaves_nothing c5env (some ⟨3⟩) rfl rfl (by decide)
      rfl rfl⟩
